import Mathlib

/-!
Verification development for the GoldenTestAutomationFramework repository.

This file gives a shallow embedding of the report-generation core of the
repository and proves properties of it:

* `Utility/frameworkDataContext.py` — the `CustomContext` singleton store
  (`user_data` dict with `set_user_data` / `get_user_data` / `reset_user_data`);
* `CustomJsonReportFormatter/custom_json_formatter.py` — the
  `CustomJSONFormatter` behave formatter (feature / background / scenario /
  step / match / result / eof / close lifecycle);
* `runner.py` — `merge_json_reports` and `generate_report_statistics`;
* `Utility/HTMLReportGenerator.py` — `handle_none_values`,
  `handle_nested_data`, `format_datetime` and the data preparation done by
  `generate_html_report`.

Python dictionaries are modelled as insertion-ordered association lists,
machine values as the JSON-like type `PyVal`, fallible code as
`Option`-returning functions, and wall-clock reads (`datetime.now()`) as
strings supplied by the environment inside each lifecycle event.
-/

/-- JSON-like Python values as they occur in the report pipeline.
`float` carries an abstract identifier: no claim computes with float values,
they are only stored and compared for identity.  A Python `dict` is an
insertion-ordered list of key/value pairs with (in real Python) unique keys. -/
inductive PyVal where
  | none
  | bool (b : Bool)
  | int (n : Int)
  | float (id : Int)
  | str (s : String)
  | list (xs : List PyVal)
  | dict (kvs : List (String × PyVal))

mutual

/-- Python `==` on the values modelled by `PyVal` (structural equality). -/
def pyBeq : PyVal → PyVal → Bool
  | PyVal.none, PyVal.none => true
  | PyVal.bool a, PyVal.bool b => a == b
  | PyVal.int a, PyVal.int b => a == b
  | PyVal.float a, PyVal.float b => a == b
  | PyVal.str a, PyVal.str b => a == b
  | PyVal.list xs, PyVal.list ys => pyBeqList xs ys
  | PyVal.dict xs, PyVal.dict ys => pyBeqDict xs ys
  | _, _ => false

def pyBeqList : List PyVal → List PyVal → Bool
  | [], [] => true
  | x :: xs, y :: ys => pyBeq x y && pyBeqList xs ys
  | _, _ => false

def pyBeqDict : List (String × PyVal) → List (String × PyVal) → Bool
  | [], [] => true
  | (k, v) :: xs, (l, w) :: ys => k == l && pyBeq v w && pyBeqDict xs ys
  | _, _ => false

end

/-- Python `value == some_string` for an arbitrary left operand: true exactly
when the value is that string (comparisons between a string and any
non-string value are `False` in Python). -/
def pyEqStr (v : PyVal) (s : String) : Bool :=
  match v with
  | PyVal.str t => t = s
  | _ => false

/-- The tuple `six.integer_types + (float, six.text_type, bool, type(None))`
used by `CustomJSONFormatter.json_scalar_types` (custom_json_formatter.py:21-22):
membership test `isinstance(v, json_scalar_types)`. -/
def isJsonScalar : PyVal → Bool
  | PyVal.none => true
  | PyVal.bool _ => true
  | PyVal.int _ => true
  | PyVal.float _ => true
  | PyVal.str _ => true
  | _ => false

/-- The `user_data` dict of the `CustomContext` singleton
(frameworkDataContext.py:7): insertion-ordered association list. -/
abbrev UserData := List (String × PyVal)

/-- Python `d[key] = value`: update the (unique) existing entry in place,
otherwise append at the end.  Embeds `CustomContext.set_user_data`
(frameworkDataContext.py:13-16). -/
def set_user_data (key : String) (value : PyVal) : UserData → UserData
  | [] => [(key, value)]
  | (k, v) :: rest =>
      if k = key then (key, value) :: rest else (k, v) :: set_user_data key value rest

/-- Python `d.get(key)` (returns `None` when absent).  Embeds
`CustomContext.get_user_data` (frameworkDataContext.py:18-21). -/
def get_user_data (ud : UserData) (key : String) : PyVal :=
  match ud with
  | [] => PyVal.none
  | (k, v) :: rest => if k = key then v else get_user_data rest key

/-- Embeds `CustomContext.reset_user_data` (frameworkDataContext.py:23-26):
`CustomContext().user_data[key] = None` — it assigns `None` to the one
given key (inserting it when absent); it does not touch any other key. -/
def reset_user_data (key : String) (ud : UserData) : UserData :=
  set_user_data key PyVal.none ud

theorem get_set_user_data_same (key : String) (v : PyVal) (ud : UserData) :
    get_user_data (set_user_data key v ud) key = v := by
  induction ud with
  | nil => simp [set_user_data, get_user_data]
  | cons kv rest ih =>
      obtain ⟨k, w⟩ := kv
      by_cases h : k = key <;> simp [set_user_data, get_user_data, h, ih]

theorem get_set_user_data_other (key k' : String) (v : PyVal) (ud : UserData)
    (h : k' ≠ key) : get_user_data (set_user_data key v ud) k' = get_user_data ud k' := by
  induction ud with
  | nil => simp [set_user_data, get_user_data, Ne.symm h]
  | cons kv rest ih =>
      obtain ⟨k, w⟩ := kv
      by_cases hk : k = key
      · subst hk
        simp [set_user_data, get_user_data, h, Ne.symm h]
      · simp [set_user_data, get_user_data, hk, ih]

/-- Python `str.splitlines()` line-boundary characters. -/
def isLineBreakChar (c : Char) : Bool :=
  c = '\n' || c = '\r' || c = '\x0b' || c = '\x0c' ||
  c = '\x1c' || c = '\x1d' || c = '\x1e' || c = '\x85' ||
  c = '\u2028' || c = '\u2029'

/-- Core recursion of `str.splitlines()`: `\r\n` counts as one boundary, a
trailing boundary does not produce an extra empty line. -/
def splitlinesAux : List Char → List Char → List (List Char)
  | [], acc => if acc = [] then [] else [acc.reverse]
  | '\r' :: '\n' :: rest, acc => acc.reverse :: splitlinesAux rest []
  | c :: rest, acc =>
      if isLineBreakChar c then acc.reverse :: splitlinesAux rest []
      else splitlinesAux rest (c :: acc)

/-- Python `text.splitlines()` for the step/error texts handled by the
formatter. -/
def pySplitlines (s : String) : List String :=
  (splitlinesAux s.toList []).map (fun cs => String.mk cs)

/-- Python `"\n" in text` for a one-character needle. -/
def containsNewline (s : String) : Bool :=
  s.toList.any (fun c => c = '\n')

/-- Python `text.startswith(pre)`. -/
def pyStartsWith (s pre : String) : Bool :=
  pre.toList.isPrefixOf s.toList

example : pySplitlines "a\nb" = ["a", "b"] := by decide
example : pySplitlines "a\n" = ["a"] := by decide
example : pySplitlines "" = [] := by decide
example : pySplitlines "\n" = [""] := by decide

/-- A step or error text after the `split_text_into_lines` treatment: either
the single original string or the list of its lines. -/
inductive StepText where
  | single (s : String)
  | lines (ls : List String)

/-- A `behave.model_core.Status` value as seen by the formatter
(`step.status` / `scenario.status` / `feature.status`). -/
inductive Status where
  | passed
  | failed
  | skipped
  | undefined
  | error
  | untested

/-- The `status.name` string of a behave status. -/
def Status.name : Status → String
  | Status.passed => "passed"
  | Status.failed => "failed"
  | Status.skipped => "skipped"
  | Status.undefined => "undefined"
  | Status.error => "error"
  | Status.untested => "untested"

/-- The table dict built by `CustomJSONFormatter.make_table`
(custom_json_formatter.py:104-110). -/
structure TableData where
  headings : List String
  rows : List (List String)

/-- The serialized form of one match argument
(custom_json_formatter.py:140-147): `value` always, `name` when truthy,
`original` when it differs from the serialized value. -/
structure ArgRec where
  value : PyVal
  name : Option String
  original : Option PyVal

/-- The `match_data` dict (custom_json_formatter.py:149-152). -/
structure MatchData where
  location : String
  arguments : List ArgRec

/-- The per-step `result` dict written by `CustomJSONFormatter.result`
(custom_json_formatter.py:187-205). -/
structure ResultRec where
  status : String
  end_time : String
  duration : PyVal
  error_message : Option StepText

/-- A step dict as built by `CustomJSONFormatter.step`
(custom_json_formatter.py:112-131) and later enriched by `match` and
`result`.  `Option` fields model dict keys that may be absent. -/
structure StepRec where
  keyword : String
  step_type : String
  name : String
  location : String
  start_time : String
  end_time : Option String
  text : Option StepText
  table : Option TableData
  matchData : Option MatchData
  Test_data : Option UserData
  Test_Output_data : Option UserData
  Screenshot_data : Option UserData
  result : Option ResultRec

/-- A feature element (scenario or background) dict
(custom_json_formatter.py:65-75 and 88-99).  `retry_attempts` is present
for scenarios only; `description` uses `[]` for an absent key (behave
descriptions are lists of lines, stored only when truthy). -/
structure Element where
  typ : String
  keyword : String
  name : String
  tags : List String
  location : String
  steps : List StepRec
  status : Option String
  start_time : String
  end_time : Option String
  retry_attempts : Option Nat
  description : List String

/-- The `current_feature_data` dict (custom_json_formatter.py:48-56).  The
`elements` key is created together with its first element
(`add_feature_element`), so a present-but-empty key never occurs after an
element exists; `[]` models the key being absent. -/
structure FeatureData where
  keyword : String
  name : String
  tags : List String
  location : String
  status : Option String
  start_time : String
  end_time : Option String
  description : List String
  elements : List Element

/-- One write to the output stream: the array-open header `"[\n"`, the
feature separator `",\n\n"`, a serialized feature, or the footer `"\n]\n"`
(custom_json_formatter.py:294-305). -/
inductive Chunk where
  | header
  | sep
  | feature (fd : FeatureData)
  | footer

/-- Environment data carried by a `feature()` call: the fields the formatter
reads from the behave feature object, plus the `datetime.now()` string
observed during the call. -/
structure FeatureInfo where
  keyword : String
  name : String
  tags : List String
  location : String
  description : List String
  time : String

/-- Environment data carried by a `scenario()` call.  `finalStatusName` and
`finalRetryAttempts` are the values of `scenario.status.name` and
`scenario.retry_attempts` that `finish_previous_element_data` will observe
when this scenario is later finalized (the behave scenario object is
mutated by the runner between the two reads, so the finalize-time values
are environment inputs). -/
structure ScenarioInfo where
  keyword : String
  name : String
  tags : List String
  location : String
  description : List String
  retry_attempts : Nat
  time : String
  finalStatusName : String
  finalRetryAttempts : Nat

/-- Environment data carried by a `step()` call.  `text = Option.none`
models a step without docstring text. -/
structure StepInfo where
  keyword : String
  step_type : String
  name : String
  location : String
  text : Option String
  table : Option TableData
  time : String

/-- Environment data carried by a `background()` call, including the
background steps that `background()` immediately forwards to `step()`
(custom_json_formatter.py:80-81). -/
structure BackgroundInfo where
  keyword : String
  name : String
  location : String
  steps : List StepInfo
  time : String

/-- One match argument as the formatter sees it: `value` is the bound
Python value, `original` the original source text object, `name` the
argument name with `""` for a falsy/absent name. -/
structure MatchArg where
  value : PyVal
  original : PyVal
  name : String

/-- Environment data carried by a `match()` call.  `location = Option.none`
models a falsy `match.location` (the serialized location text is then the
string `"None"`, and the match data is not attached to any step). -/
structure MatchInfo where
  arguments : List MatchArg
  location : Option String

/-- Environment data carried by a `result()` call: the step status, the
already-rounded duration (float rounding kept abstract), the error message
and the `datetime.now()` string observed during the call. -/
structure ResultInfo where
  status : Status
  roundedDuration : PyVal
  error_message : Option String
  time : String

/-- The mutable state of a `CustomJSONFormatter` instance together with the
`CustomContext` singleton store and the output stream.  The behave
`current_feature` object is set and cleared together with
`current_feature_data`, so one `Option` models the presence of both. -/
structure FmtState where
  feature_count : Nat
  current_feature_data : Option FeatureData
  current_scenario : Option ScenarioInfo
  step_index : Nat
  user_data : UserData
  stream : List Chunk

/-- A fresh formatter over a fresh `CustomContext` (the singleton starts
with `user_data = {}`) and an empty output stream. -/
def initState : FmtState :=
  { feature_count := 0, current_feature_data := Option.none,
    current_scenario := Option.none, step_index := 0,
    user_data := [], stream := [] }

/-- Class attribute `CustomJSONFormatter.split_text_into_lines = True`
(custom_json_formatter.py:19). -/
def split_text_into_lines : Bool := true

/-- Append one chunk to the output stream. -/
def writeChunk (st : FmtState) (c : Chunk) : FmtState :=
  { st with stream := st.stream ++ [c] }

/-- The `text` key of a step dict (custom_json_formatter.py:122-126):
present only when `step.text` is truthy (non-`None` and non-empty); split
into lines when `split_text_into_lines` and the text contains `"\n"`. -/
def stepTextField (text : Option String) : Option StepText :=
  match text with
  | Option.none => Option.none
  | Option.some t =>
      if t = "" then Option.none
      else if split_text_into_lines && containsNewline t then
        Option.some (StepText.lines (pySplitlines t))
      else Option.some (StepText.single t)

/-- The error-message treatment in `result` (custom_json_formatter.py:193-205):
kept as a single string unless it contains `"\n"`. -/
def errorMessageField (m : String) : StepText :=
  if split_text_into_lines && containsNewline m then StepText.lines (pySplitlines m)
  else StepText.single m

/-- Python `elements[-1]["steps"].append(s)`: push a step onto the last
element; `Option.none` models the `IndexError` on an empty element list. -/
def pushStepLast (es : List Element) (s : StepRec) : Option (List Element) :=
  match es with
  | [] => Option.none
  | e :: rest =>
      match rest with
      | [] => Option.some [{ e with steps := e.steps ++ [s] }]
      | r :: rs => (pushStepLast (r :: rs) s).map (fun es' => e :: es')

/-- Python `elements[-1]["steps"][idx] = f(...)`: update the step at `idx`
of the last element; `Option.none` models `IndexError` (empty element list
or index out of range). -/
def setLastStep (es : List Element) (idx : Nat) (f : StepRec → StepRec) :
    Option (List Element) :=
  match es with
  | [] => Option.none
  | e :: rest =>
      match rest with
      | [] =>
          match e.steps.get? idx with
          | Option.none => Option.none
          | Option.some s => Option.some [{ e with steps := e.steps.set idx (f s) }]
      | r :: rs => (setLastStep (r :: rs) idx f).map (fun es' => e :: es')

/-- Apply `g` to the last element of the list (no-op on `[]`). -/
def mapLastElement (g : Element → Element) : List Element → List Element
  | [] => []
  | e :: rest =>
      match rest with
      | [] => [g e]
      | r :: rs => e :: mapLastElement g (r :: rs)

/-- The finalization applied to the last element when it is a scenario
(custom_json_formatter.py:280-291): set `status`, `end_time` and
`retry_attempts` from the values observed on the current scenario object. -/
def finishScenarioElement (sc : ScenarioInfo) (now : String) (e : Element) : Element :=
  if e.typ = "scenario" then
    { e with status := Option.some sc.finalStatusName,
             end_time := Option.some now,
             retry_attempts := Option.some sc.finalRetryAttempts }
  else e

namespace CustomJSONFormatter

/-- Embeds `CustomJSONFormatter.finish_previous_element_data`
(custom_json_formatter.py:269-291). It returns early when there is no
current feature data or no `elements` key; otherwise it finalizes the last
element if it is a scenario and a current scenario exists. -/
def finish_previous_element_data (now : String) (st : FmtState) : FmtState :=
  match st.current_feature_data, st.current_scenario with
  | Option.some fd, Option.some sc =>
      if fd.elements.isEmpty then st
      else
        let fd' := { fd with elements := mapLastElement (finishScenarioElement sc now) fd.elements }
        { st with current_feature_data := Option.some fd' }
  | _, _ => st

/-- Embeds `CustomJSONFormatter.feature` (custom_json_formatter.py:45-59):
`reset()` then install the new feature data (with `description` only when
truthy, modelled by the list itself; `elements` key initially absent). -/
def feature (i : FeatureInfo) (st : FmtState) : FmtState :=
  { st with
    current_feature_data := Option.some
      { keyword := i.keyword, name := i.name, tags := i.tags,
        location := i.location, status := Option.none,
        start_time := i.time, end_time := Option.none,
        description := i.description, elements := [] },
    current_scenario := Option.none,
    step_index := 0 }

/-- Embeds `CustomJSONFormatter.scenario` (custom_json_formatter.py:83-102):
finalize the previous element (still using the old `current_scenario`),
install the new current scenario, append the scenario element
(`add_feature_element` asserts that feature data exists), reset the step
cursor to zero. -/
def scenario (i : ScenarioInfo) (st : FmtState) : Option FmtState :=
  let st1 := finish_previous_element_data i.time st
  let st2 := { st1 with current_scenario := Option.some i }
  match st2.current_feature_data with
  | Option.none => Option.none
  | Option.some fd =>
      let element : Element :=
        { typ := "scenario", keyword := i.keyword, name := i.name,
          tags := i.tags, location := i.location, steps := [],
          status := Option.none, start_time := i.time,
          end_time := Option.none,
          retry_attempts := Option.some i.retry_attempts,
          description := i.description }
      Option.some { st2 with
        current_feature_data := Option.some { fd with elements := fd.elements ++ [element] },
        step_index := 0 }

/-- Embeds `CustomJSONFormatter.step` (custom_json_formatter.py:112-131):
build the step dict and append it to the steps of the last element. -/
def step (i : StepInfo) (st : FmtState) : Option FmtState :=
  let s : StepRec :=
    { keyword := i.keyword, step_type := i.step_type, name := i.name,
      location := i.location, start_time := i.time, end_time := Option.none,
      text := stepTextField i.text, table := i.table,
      matchData := Option.none, Test_data := Option.none,
      Test_Output_data := Option.none, Screenshot_data := Option.none,
      result := Option.none }
  match st.current_feature_data with
  | Option.none => Option.none
  | Option.some fd =>
      (pushStepLast fd.elements s).map (fun es =>
        { st with current_feature_data := Option.some { fd with elements := es } })

/-- Run `step` over a list of steps, as `background` does for
`background.steps` (custom_json_formatter.py:80-81). -/
def runBackgroundSteps : List StepInfo → FmtState → Option FmtState
  | [], st => Option.some st
  | i :: rest, st =>
      match step i st with
      | Option.none => Option.none
      | Option.some st' => runBackgroundSteps rest st'

/-- Embeds `CustomJSONFormatter.background` (custom_json_formatter.py:61-81):
finalize the previous element, append the background element (status is the
empty string, no `retry_attempts`), reset the step cursor, then feed every
background step through `step` (the re-assignment of a truthy
`background.name` writes back the value already stored and is a no-op). -/
def background (i : BackgroundInfo) (st : FmtState) : Option FmtState :=
  let st1 := finish_previous_element_data i.time st
  match st1.current_feature_data with
  | Option.none => Option.none
  | Option.some fd =>
      let element : Element :=
        { typ := "background", keyword := i.keyword, name := i.name,
          tags := [], location := i.location, steps := [],
          status := Option.some "", start_time := i.time,
          end_time := Option.none, retry_attempts := Option.none,
          description := [] }
      let st2 := { st1 with
        current_feature_data := Option.some { fd with elements := fd.elements ++ [element] },
        step_index := 0 }
      runBackgroundSteps i.steps st2

/-- Serialization of one match argument (custom_json_formatter.py:135-147):
fall back to `argument.original` when the bound value is not a JSON-safe
scalar; `Option.none` models the failing `assert isinstance(...)`. -/
def serializeArg (a : MatchArg) : Option ArgRec :=
  let argument_value := if isJsonScalar a.value then a.value else a.original
  if isJsonScalar argument_value then
    Option.some
      { value := argument_value,
        name := if a.name = "" then Option.none else Option.some a.name,
        original := if pyBeq a.original argument_value then Option.none
                    else Option.some a.original }
  else Option.none

/-- Serialize all match arguments in order, propagating failure. -/
def serializeArgs : List MatchArg → Option (List ArgRec)
  | [] => Option.some []
  | a :: rest =>
      match serializeArg a with
      | Option.none => Option.none
      | Option.some r => (serializeArgs rest).map (fun rs => r :: rs)

/-- Embeds `CustomJSONFormatter.match` (custom_json_formatter.py:133-155):
serialize the arguments (with the scalar assertion), then, when
`match.location` is truthy, attach the match data to the step at the
current cursor.  `six.text_type(None)` is the truthy string `"None"`, so
the `or ""` fallback for the location text is dead code. -/
def matchStep (i : MatchInfo) (st : FmtState) : Option FmtState :=
  match serializeArgs i.arguments with
  | Option.none => Option.none
  | Option.some args =>
      let match_data : MatchData :=
        { location :=
            match i.location with
            | Option.some loc => loc
            | Option.none => "None",
          arguments := args }
      match i.location with
      | Option.none => Option.some st
      | Option.some _ =>
          match st.current_feature_data with
          | Option.none => Option.none
          | Option.some fd =>
              (setLastStep fd.elements st.step_index
                  (fun s => { s with matchData := Option.some match_data })).map
                (fun es => { st with current_feature_data := Option.some { fd with elements := es } })

end CustomJSONFormatter

/-- The per-call harvesting loops of `CustomJSONFormatter.result`
(custom_json_formatter.py:163-173): iterate over the store keys in
insertion order and collect `key -> get_user_data(key)` for every key that
starts with the given text. -/
def drainUserData (pre : String) (ud : UserData) : UserData :=
  (ud.filter (fun kv => pyStartsWith kv.1 pre)).map (fun kv => (kv.1, get_user_data ud kv.1))

namespace CustomJSONFormatter

/-- Embeds `CustomJSONFormatter.result` (custom_json_formatter.py:157-214):
harvest `inputdata*` / `outputdata*` / `screenshot*` keys from the store,
write the three harvested dicts back under `"Input Data"` /
`"Output Data"` / `"Screenshot Data"`, attach them and the result dict to
the step at the current cursor, advance the cursor, then (for each
non-empty harvested dict) call `reset_user_data` on the literal key
`"inputdata"` / `"outputdata"` / `"screenshot"`.  `Option.none` models the
`IndexError` on `steps[self._step_index]`; the store writes that Python
performs before such a crash are not observable here because the whole run
aborts. -/
def result (i : ResultInfo) (st : FmtState) : Option FmtState :=
  let input_data := drainUserData "inputdata" st.user_data
  let output_data := drainUserData "outputdata" st.user_data
  let screenshot_data := drainUserData "screenshot" st.user_data
  let ud1 := set_user_data "Input Data" (PyVal.dict input_data) st.user_data
  let ud2 := set_user_data "Output Data" (PyVal.dict output_data) ud1
  let ud3 := set_user_data "Screenshot Data" (PyVal.dict screenshot_data) ud2
  let r0 : ResultRec :=
    { status := i.status.name, end_time := i.time,
      duration := i.roundedDuration, error_message := Option.none }
  let msgTruthy : Bool :=
    match i.error_message with
    | Option.some m => !(m = "")
    | Option.none => false
  let r1 :=
    match i.error_message, i.status with
    | Option.some m, Status.failed => if msgTruthy then { r0 with error_message := Option.some (errorMessageField m) } else r0
    | _, _ => r0
  let r2 :=
    match i.error_message, i.status with
    | Option.some m, Status.error => if msgTruthy then { r1 with error_message := Option.some (errorMessageField m) } else r1
    | _, _ => r1
  match st.current_feature_data with
  | Option.none => Option.none
  | Option.some fd =>
      match setLastStep fd.elements st.step_index (fun s =>
          { s with Test_data := Option.some input_data,
                   Test_Output_data := Option.some output_data,
                   Screenshot_data := Option.some screenshot_data,
                   result := Option.some r2 }) with
      | Option.none => Option.none
      | Option.some es =>
          let ud4 := if input_data.isEmpty then ud3 else reset_user_data "inputdata" ud3
          let ud5 := if output_data.isEmpty then ud4 else reset_user_data "outputdata" ud4
          let ud6 := if screenshot_data.isEmpty then ud5 else reset_user_data "screenshot" ud5
          Option.some { st with
            current_feature_data := Option.some { fd with elements := es },
            step_index := st.step_index + 1,
            user_data := ud6 }

/-- Embeds `CustomJSONFormatter.eof` (custom_json_formatter.py:225-242):
return early without feature data; otherwise finalize the last element,
set the feature status (read from the behave feature object at eof time)
and end time, write the header before the first feature or a separator
before later ones, write the feature, reset, and count it. -/
def eof (now : String) (featureStatusName : String) (st : FmtState) : FmtState :=
  match st.current_feature_data with
  | Option.none => st
  | Option.some _ =>
      let st1 := finish_previous_element_data now st
      match st1.current_feature_data with
      | Option.none => st1
      | Option.some fd =>
          let fd' := { fd with status := Option.some featureStatusName,
                               end_time := Option.some now }
          let st2 := if st1.feature_count = 0 then writeChunk st1 Chunk.header
                     else writeChunk st1 Chunk.sep
          let st3 := writeChunk st2 (Chunk.feature fd')
          { st3 with current_feature_data := Option.none,
                     current_scenario := Option.none,
                     step_index := 0,
                     feature_count := st3.feature_count + 1 }

/-- Embeds `CustomJSONFormatter.close` (custom_json_formatter.py:244-248):
write the header when no feature was ever written, then the footer, then
close the stream (stream closing itself has no observable effect here). -/
def close (st : FmtState) : FmtState :=
  let st1 := if st.feature_count = 0 then writeChunk st Chunk.header else st
  writeChunk st1 Chunk.footer

end CustomJSONFormatter

/-- One lifecycle event of a test run: the formatter callbacks, plus
`setUserData` for a step definition writing into the `CustomContext`
singleton via `CustomContext.set_user_data` while the run executes. -/
inductive Ev where
  | feature (i : FeatureInfo)
  | background (i : BackgroundInfo)
  | scenario (i : ScenarioInfo)
  | step (i : StepInfo)
  | matchEv (i : MatchInfo)
  | result (i : ResultInfo)
  | setUserData (key : String) (value : PyVal)
  | eof (now : String) (featureStatusName : String)

/-- Dispatch one event to the corresponding formatter method (or store
write). -/
def stepEv (st : FmtState) : Ev → Option FmtState
  | Ev.feature i => Option.some (CustomJSONFormatter.feature i st)
  | Ev.background i => CustomJSONFormatter.background i st
  | Ev.scenario i => CustomJSONFormatter.scenario i st
  | Ev.step i => CustomJSONFormatter.step i st
  | Ev.matchEv i => CustomJSONFormatter.matchStep i st
  | Ev.result i => CustomJSONFormatter.result i st
  | Ev.setUserData k v => Option.some { st with user_data := set_user_data k v st.user_data }
  | Ev.eof now fs => Option.some (CustomJSONFormatter.eof now fs st)

/-- Run a sequence of lifecycle events, propagating any Python exception as
`Option.none`. -/
def runEvents (st : FmtState) : List Ev → Option FmtState
  | [] => Option.some st
  | e :: t =>
      match stepEv st e with
      | Option.none => Option.none
      | Option.some st' => runEvents st' t

/-- Outcome of trying to read one shard path in `merge_json_reports`
(runner.py:316-342): the path is not a regular file, opening or reading it
raises `OSError`, `json.load` raises `JSONDecodeError`, or the file parses
to a JSON value. -/
inductive ShardContent where
  | notAFile
  | readFailed
  | invalidJson
  | parsed (v : PyVal)

/-- The body of the `for file in json_report_files` loop of
`merge_json_reports` (runner.py:318-342): extend the accumulator with the
parsed array; every failure case is logged and skipped. -/
def merge_step (fs : String → ShardContent) (merged_results : List PyVal) (file : String) :
    List PyVal :=
  match fs file with
  | ShardContent.parsed report_data =>
      match report_data with
      | PyVal.list l => merged_results ++ l
      | _ => merged_results
  | _ => merged_results

/-- Embeds `merge_json_reports` (runner.py:310-348) over a file-system
snapshot `fs`.  The function is total: every per-file failure is caught
inside the loop, and the final `isinstance(merged_results, list)` guard
can never raise because the accumulator is always a list. -/
def merge_json_reports (fs : String → ShardContent) (json_report_files : List String) :
    List PyVal :=
  json_report_files.foldl (merge_step fs) []

/-- A call of `merge_json_reports` seen together with its environment: the
source only opens shard files for reading and only appends to the freshly
created `merged_results` list, so the file-system snapshot and the input
path list come out of the call unchanged. -/
def mergeReportsRun (fs : String → ShardContent) (json_report_files : List String) :
    List PyVal × (String → ShardContent) × List String :=
  (merge_json_reports fs json_report_files, fs, json_report_files)

/-- Tallies returned by `generate_report_statistics` (runner.py:380-395). -/
structure Tallies where
  passed : Nat
  failed : Nat
  skipped : Nat
  errors : Nat
deriving DecidableEq

/-- Python `scenario.get('status', 'unknown')` on an element dict. -/
def statusValue (kvs : List (String × PyVal)) : PyVal :=
  match kvs.find? (fun kv => kv.1 = "status") with
  | Option.some kv => kv.2
  | Option.none => PyVal.str "unknown"

/-- Python `result.get('elements', [])` on a feature dict. -/
def elementsValue (kvs : List (String × PyVal)) : PyVal :=
  match kvs.find? (fun kv => kv.1 = "elements") with
  | Option.some kv => kv.2
  | Option.none => PyVal.list []

/-- Body of the inner loop of `generate_report_statistics`
(runner.py:383-393): bucket one element by its `status`.  Statuses other
than `passed` / `failed` / `skipped` / `undefined` fall through all four
branches and increment nothing.  A non-dict element would raise
`AttributeError` on `.get`, modelled as `Option.none`. -/
def tally_element (acc : Tallies) (scenario : PyVal) : Option Tallies :=
  match scenario with
  | PyVal.dict kvs =>
      let scenario_status := statusValue kvs
      Option.some
        (if pyEqStr scenario_status "passed" then { acc with passed := acc.passed + 1 }
         else if pyEqStr scenario_status "failed" then { acc with failed := acc.failed + 1 }
         else if pyEqStr scenario_status "skipped" then { acc with skipped := acc.skipped + 1 }
         else if pyEqStr scenario_status "undefined" then { acc with errors := acc.errors + 1 }
         else acc)
  | _ => Option.none

/-- Fold a fallible step over a list, propagating failure. -/
def foldOption (f : Tallies → PyVal → Option Tallies) : Tallies → List PyVal → Option Tallies
  | acc, [] => Option.some acc
  | acc, x :: xs =>
      match f acc x with
      | Option.none => Option.none
      | Option.some a => foldOption f a xs

/-- Body of the outer loop of `generate_report_statistics`
(runner.py:382-393): `result.get('elements', [])` needs a dict
(`AttributeError` otherwise) and iterating anything but a list over
scenario dicts raises inside the inner loop, both modelled as
`Option.none`. -/
def tally_feature (acc : Tallies) (result : PyVal) : Option Tallies :=
  match result with
  | PyVal.dict kvs =>
      match elementsValue kvs with
      | PyVal.list els => foldOption tally_element acc els
      | _ => Option.none
  | _ => Option.none

/-- Embeds `generate_report_statistics` (runner.py:380-395). -/
def generate_report_statistics (merged_results : List PyVal) : Option Tallies :=
  foldOption tally_feature { passed := 0, failed := 0, skipped := 0, errors := 0 } merged_results

/-- Embeds `handle_none_values` (HTMLReportGenerator.py:14-20): `None`
becomes `"N/A"`, an empty dict or list becomes `"No Data Available"`,
anything else is returned unchanged. -/
def handle_none_values : PyVal → PyVal
  | PyVal.none => PyVal.str "N/A"
  | PyVal.dict [] => PyVal.str "No Data Available"
  | PyVal.list [] => PyVal.str "No Data Available"
  | v => v

mutual

/-- Embeds `handle_nested_data` (HTMLReportGenerator.py:23-30): rebuild
dicts and lists by recursing into their entries and return every other
value unchanged — the recursion never applies `handle_none_values` to
anything. -/
def handle_nested_data : PyVal → PyVal
  | PyVal.dict kvs => PyVal.dict (handle_nested_dict kvs)
  | PyVal.list xs => PyVal.list (handle_nested_list xs)
  | v => v

def handle_nested_list : List PyVal → List PyVal
  | [] => []
  | x :: xs => handle_nested_data x :: handle_nested_list xs

def handle_nested_dict : List (String × PyVal) → List (String × PyVal)
  | [] => []
  | (k, v) :: kvs => (k, handle_nested_data v) :: handle_nested_dict kvs

end

/-- Embeds `format_datetime` (HTMLReportGenerator.py:33-37) restricted to
JSON-compatible values: `PyVal` has no `datetime` instances, so the
`isinstance(data, datetime)` test is always false and the data is
returned unchanged. -/
def format_datetime (data : PyVal) : PyVal := data

/-- The data preparation performed by `generate_html_report`
(HTMLReportGenerator.py:46-48) before template substitution:
`handle_nested_data`, then `handle_none_values`, then `format_datetime`. -/
def generate_html_report_data (data : PyVal) : PyVal :=
  format_datetime (handle_none_values (handle_nested_data data))

mutual

/-- The recursion of `handle_nested_data` rebuilds every dict and list
without transforming any leaf: it is the identity function. -/
theorem handle_nested_data_id : (v : PyVal) → handle_nested_data v = v
  | PyVal.none => rfl
  | PyVal.bool _ => rfl
  | PyVal.int _ => rfl
  | PyVal.float _ => rfl
  | PyVal.str _ => rfl
  | PyVal.list xs => by rw [handle_nested_data, handle_nested_list_id xs]
  | PyVal.dict kvs => by rw [handle_nested_data, handle_nested_dict_id kvs]

theorem handle_nested_list_id : (xs : List PyVal) → handle_nested_list xs = xs
  | [] => rfl
  | x :: xs => by rw [handle_nested_list, handle_nested_data_id x, handle_nested_list_id xs]

theorem handle_nested_dict_id : (kvs : List (String × PyVal)) → handle_nested_dict kvs = kvs
  | [] => rfl
  | (k, v) :: kvs => by rw [handle_nested_dict, handle_nested_data_id v, handle_nested_dict_id kvs]

end

/-- C3 (code bug): the sub-report renderer does NOT replace nested `None` /
empty-collection leaves.  `handle_nested_data` is the identity (it recurses
without ever applying `handle_none_values`), and `handle_none_values` is
applied only to the top-level value, so the nested `None` in
`{"k": None}` survives the whole `generate_html_report` data preparation,
while a top-level bare `None` would indeed become `"N/A"` and a top-level
empty dict `"No Data Available"`. -/
theorem C3_nested_leaves_not_replaced :
    (∀ v, handle_nested_data v = v) ∧
    generate_html_report_data (PyVal.dict [("k", PyVal.none)]) =
      PyVal.dict [("k", PyVal.none)] ∧
    generate_html_report_data PyVal.none = PyVal.str "N/A" ∧
    generate_html_report_data (PyVal.dict []) = PyVal.str "No Data Available" := by
  refine ⟨handle_nested_data_id, ?_, rfl, rfl⟩
  show format_datetime (handle_none_values (handle_nested_data (PyVal.dict [("k", PyVal.none)]))) = _
  rw [handle_nested_data_id]
  rfl

/-- The contribution of one shard path to the merge: its parsed array when
the path holds a valid JSON array, nothing otherwise. -/
def validShardArray (fs : String → ShardContent) (file : String) : List PyVal :=
  match fs file with
  | ShardContent.parsed (PyVal.list l) => l
  | _ => []

theorem merge_foldl_eq (fs : String → ShardContent) (files : List String) :
    ∀ acc : List PyVal,
      files.foldl (merge_step fs) acc = acc ++ (files.map (validShardArray fs)).flatten := by
  induction files with
  | nil => intro acc; simp
  | cons f rest ih =>
      intro acc
      rw [List.foldl_cons, ih]
      have hstep : merge_step fs acc f = acc ++ validShardArray fs f := by
        unfold merge_step validShardArray
        cases fs f with
        | parsed v => cases v <;> simp
        | notAFile => simp
        | readFailed => simp
        | invalidJson => simp
      rw [hstep]
      simp

/-- C4: `merge_json_reports` returns exactly the concatenation of the parsed
arrays of the valid shards, in the caller-supplied path order, each
internal order of each shard preserved; every missing / unreadable /
unparsable / non-array path contributes nothing.  The function is total
(`List`, not `Option`): each failure case is caught and logged inside the
loop, so one bad shard never aborts the merge. -/
theorem C4_merge_reports_concatenates_valid_shards
    (fs : String → ShardContent) (files : List String) :
    merge_json_reports fs files = (files.map (validShardArray fs)).flatten := by
  unfold merge_json_reports
  rw [merge_foldl_eq]
  simp

/-- C9: running `merge_json_reports` twice over the same snapshot and path
list yields identical results, and a run returns the file-system snapshot
and the input path list unchanged (the source only reads the shard files
and only appends to its fresh accumulator). -/
theorem C9_merge_reports_idempotent
    (fs : String → ShardContent) (files : List String) :
    (mergeReportsRun fs files).1 =
      (mergeReportsRun (mergeReportsRun fs files).2.1 (mergeReportsRun fs files).2.2).1 ∧
    (mergeReportsRun fs files).2.1 = fs ∧
    (mergeReportsRun fs files).2.2 = files :=
  ⟨rfl, rfl, rfl⟩

/-- Modelled from the claim wording for C2: bucket one element by status,
counting ANY status other than `passed` / `failed` / `skipped` as an
error.  This is the claimed behaviour, to be compared against
`tally_element`. -/
def claimTallyElement (acc : Tallies) (scenario : PyVal) : Option Tallies :=
  match scenario with
  | PyVal.dict kvs =>
      let scenario_status := statusValue kvs
      Option.some
        (if pyEqStr scenario_status "passed" then { acc with passed := acc.passed + 1 }
         else if pyEqStr scenario_status "failed" then { acc with failed := acc.failed + 1 }
         else if pyEqStr scenario_status "skipped" then { acc with skipped := acc.skipped + 1 }
         else { acc with errors := acc.errors + 1 })
  | _ => Option.none

/-- Modelled from the claim wording for C2: the tallies the claim predicts. -/
def claimTallies (merged_results : List PyVal) : Option Tallies :=
  foldOption
    (fun acc result =>
      match result with
      | PyVal.dict kvs =>
          match elementsValue kvs with
          | PyVal.list els => foldOption claimTallyElement acc els
          | _ => Option.none
      | _ => Option.none)
    { passed := 0, failed := 0, skipped := 0, errors := 0 } merged_results

/-- A single feature whose single element has status `"error"`. -/
def c2Input : List PyVal :=
  [PyVal.dict [("elements", PyVal.list [PyVal.dict [("status", PyVal.str "error")]])]]

/-- C2 counterexample: on a feature whose element has status `"error"`, the
code increments NO tally (all four stay 0), while the claim predicts the
errors tally becomes 1.  Only the literal status `"undefined"` increments
`errors` in `generate_report_statistics`. -/
theorem C2_counterexample_error_status_not_counted :
    generate_report_statistics c2Input =
      Option.some { passed := 0, failed := 0, skipped := 0, errors := 0 } ∧
    claimTallies c2Input =
      Option.some { passed := 0, failed := 0, skipped := 0, errors := 1 } ∧
    generate_report_statistics c2Input ≠ claimTallies c2Input := by
  refine ⟨by decide, by decide, by decide⟩

/-- A well-shaped report: every record is a dict whose `elements` value is a
list of dicts (the shape the formatter always produces). -/
def wellShapedRecord (r : PyVal) : Bool :=
  match r with
  | PyVal.dict kvs =>
      match elementsValue kvs with
      | PyVal.list els =>
          els.all (fun s => match s with | PyVal.dict _ => true | _ => false)
      | _ => false
  | _ => false

/-- The status values of all elements of all features, in scan order. -/
def allStatuses (merged_results : List PyVal) : List PyVal :=
  merged_results.flatMap (fun r =>
    match r with
    | PyVal.dict kvs =>
        match elementsValue kvs with
        | PyVal.list els =>
            els.map (fun s => match s with | PyVal.dict k2 => statusValue k2 | _ => PyVal.none)
        | _ => []
    | _ => [])

theorem pyEqStr_eq_true_iff (v : PyVal) (s : String) :
    pyEqStr v s = true ↔ v = PyVal.str s := by
  cases v <;> simp [pyEqStr]

theorem tally_element_fold (els : List PyVal)
    (h : els.all (fun s => match s with | PyVal.dict _ => true | _ => false) = true) :
    ∀ acc : Tallies,
      foldOption tally_element acc els =
        Option.some
          { passed := acc.passed +
              (els.map (fun s => match s with | PyVal.dict k2 => statusValue k2 | _ => PyVal.none)).countP
                (fun v => pyEqStr v "passed"),
            failed := acc.failed +
              (els.map (fun s => match s with | PyVal.dict k2 => statusValue k2 | _ => PyVal.none)).countP
                (fun v => pyEqStr v "failed"),
            skipped := acc.skipped +
              (els.map (fun s => match s with | PyVal.dict k2 => statusValue k2 | _ => PyVal.none)).countP
                (fun v => pyEqStr v "skipped"),
            errors := acc.errors +
              (els.map (fun s => match s with | PyVal.dict k2 => statusValue k2 | _ => PyVal.none)).countP
                (fun v => pyEqStr v "undefined") } := by
  induction els with
  | nil => intro acc; simp [foldOption]
  | cons e rest ih =>
      intro acc
      simp only [List.all_cons, Bool.and_eq_true] at h
      obtain ⟨he, hrest⟩ := h
      cases e with
      | dict k2 =>
          rw [foldOption]
          show foldOption tally_element
            (if pyEqStr (statusValue k2) "passed" then { acc with passed := acc.passed + 1 }
             else if pyEqStr (statusValue k2) "failed" then { acc with failed := acc.failed + 1 }
             else if pyEqStr (statusValue k2) "skipped" then { acc with skipped := acc.skipped + 1 }
             else if pyEqStr (statusValue k2) "undefined" then { acc with errors := acc.errors + 1 }
             else acc) rest = _
          rw [ih hrest]
          simp only [List.map_cons, List.countP_cons]
          by_cases h1 : pyEqStr (statusValue k2) "passed"
          · rw [(pyEqStr_eq_true_iff _ _).mp h1]
            simp [pyEqStr, Tallies.mk.injEq]
            omega
          · by_cases h2 : pyEqStr (statusValue k2) "failed"
            · rw [(pyEqStr_eq_true_iff _ _).mp h2]
              simp [pyEqStr, Tallies.mk.injEq]
              omega
            · by_cases h3 : pyEqStr (statusValue k2) "skipped"
              · rw [(pyEqStr_eq_true_iff _ _).mp h3]
                simp [pyEqStr, Tallies.mk.injEq]
                omega
              · by_cases h4 : pyEqStr (statusValue k2) "undefined"
                · rw [(pyEqStr_eq_true_iff _ _).mp h4]
                  simp [pyEqStr, Tallies.mk.injEq]
                  omega
                · simp [h1, h2, h3, h4, Tallies.mk.injEq]
      | none => simp at he
      | bool b => simp at he
      | int n => simp at he
      | float q => simp at he
      | str s => simp at he
      | list xs => simp at he

theorem wellShaped_dict_elim (kvs : List (String × PyVal))
    (hr : wellShapedRecord (PyVal.dict kvs) = true) :
    ∃ els, elementsValue kvs = PyVal.list els ∧
      els.all (fun s => match s with | PyVal.dict _ => true | _ => false) = true := by
  simp only [wellShapedRecord] at hr
  cases hels : elementsValue kvs with
  | list els =>
      rw [hels] at hr
      exact ⟨els, rfl, hr⟩
  | none => rw [hels] at hr; simp at hr
  | bool b => rw [hels] at hr; simp at hr
  | int n => rw [hels] at hr; simp at hr
  | float q => rw [hels] at hr; simp at hr
  | str s => rw [hels] at hr; simp at hr
  | dict k2 => rw [hels] at hr; simp at hr

/-- C2 (amended): on every well-shaped report list,
`generate_report_statistics` scans every element of every feature and
returns the counts of elements with status exactly `"passed"`,
`"failed"`, `"skipped"`, and — for the errors tally — exactly
`"undefined"`.  Any other status value (such as `"error"`, `"untested"`
or an unrecognized label) increments no tally at all. -/
theorem C2_amended_only_undefined_counts_as_error
    (merged_results : List PyVal)
    (h : merged_results.all wellShapedRecord = true) :
    generate_report_statistics merged_results =
      Option.some
        { passed := (allStatuses merged_results).countP (fun v => pyEqStr v "passed"),
          failed := (allStatuses merged_results).countP (fun v => pyEqStr v "failed"),
          skipped := (allStatuses merged_results).countP (fun v => pyEqStr v "skipped"),
          errors := (allStatuses merged_results).countP (fun v => pyEqStr v "undefined") } := by
  suffices hgen : ∀ acc : Tallies,
      foldOption tally_feature acc merged_results =
        Option.some
          { passed := acc.passed + (allStatuses merged_results).countP (fun v => pyEqStr v "passed"),
            failed := acc.failed + (allStatuses merged_results).countP (fun v => pyEqStr v "failed"),
            skipped := acc.skipped + (allStatuses merged_results).countP (fun v => pyEqStr v "skipped"),
            errors := acc.errors + (allStatuses merged_results).countP (fun v => pyEqStr v "undefined") } by
    unfold generate_report_statistics
    rw [hgen]
    simp
  induction merged_results with
  | nil => intro acc; simp [foldOption, allStatuses]
  | cons r rest ih =>
      intro acc
      simp only [List.all_cons, Bool.and_eq_true] at h
      obtain ⟨hr, hrest⟩ := h
      cases r with
      | dict kvs =>
          obtain ⟨els, hels, halld⟩ := wellShaped_dict_elim kvs hr
          have htf : tally_feature acc (PyVal.dict kvs) =
              Option.some
                { passed := acc.passed +
                    (els.map (fun s => match s with | PyVal.dict k2 => statusValue k2 | _ => PyVal.none)).countP
                      (fun v => pyEqStr v "passed"),
                  failed := acc.failed +
                    (els.map (fun s => match s with | PyVal.dict k2 => statusValue k2 | _ => PyVal.none)).countP
                      (fun v => pyEqStr v "failed"),
                  skipped := acc.skipped +
                    (els.map (fun s => match s with | PyVal.dict k2 => statusValue k2 | _ => PyVal.none)).countP
                      (fun v => pyEqStr v "skipped"),
                  errors := acc.errors +
                    (els.map (fun s => match s with | PyVal.dict k2 => statusValue k2 | _ => PyVal.none)).countP
                      (fun v => pyEqStr v "undefined") } := by
            simp only [tally_feature]
            rw [hels]
            exact tally_element_fold els halld acc
          have hall : allStatuses (PyVal.dict kvs :: rest) =
              (els.map (fun s => match s with | PyVal.dict k2 => statusValue k2 | _ => PyVal.none)) ++
                allStatuses rest := by
            simp only [allStatuses, List.flatMap_cons, hels]
          simp only [foldOption, htf, ih hrest, hall, List.countP_append,
            Option.some.injEq, Tallies.mk.injEq]
          refine ⟨by omega, by omega, by omega, by omega⟩
      | none => simp [wellShapedRecord] at hr
      | bool b => simp [wellShapedRecord] at hr
      | int n => simp [wellShapedRecord] at hr
      | float q => simp [wellShapedRecord] at hr
      | str s => simp [wellShapedRecord] at hr
      | list xs => simp [wellShapedRecord] at hr

/-- A report list exercising the amended C2 statement: one passed element
and one undefined element. -/
def c2WitnessInput : List PyVal :=
  [PyVal.dict [("elements", PyVal.list
      [PyVal.dict [("status", PyVal.str "passed")],
       PyVal.dict [("status", PyVal.str "undefined")]])]]

theorem C2_witness :
    c2WitnessInput.all wellShapedRecord = true ∧
    generate_report_statistics c2WitnessInput =
      Option.some { passed := 1, failed := 0, skipped := 0, errors := 1 } := by
  refine ⟨by decide, ?_⟩
  rw [C2_amended_only_undefined_counts_as_error c2WitnessInput (by decide)]
  decide

theorem serializeArgs_none_of_mem (a : MatchArg) :
    ∀ args : List MatchArg, a ∈ args →
      CustomJSONFormatter.serializeArg a = Option.none →
      CustomJSONFormatter.serializeArgs args = Option.none := by
  intro args
  induction args with
  | nil => intro h; exact absurd h (List.not_mem_nil a)
  | cons b rest ih =>
      intro hmem hnone
      rcases List.mem_cons.mp hmem with hb | hrest
      · subst hb
        simp [CustomJSONFormatter.serializeArgs, hnone]
      · rw [CustomJSONFormatter.serializeArgs]
        cases CustomJSONFormatter.serializeArg b with
        | none => rfl
        | some r => rw [ih hrest hnone]; rfl

/-- C7: when the bound value of a match argument is not a JSON-safe scalar, the
serialized `value` field is the original source text of the argument; and when
that fallback is itself not a JSON-safe scalar, the assertion in
`CustomJSONFormatter.match` fails, so the whole `match()` call raises
instead of serializing the argument. -/
theorem C7_match_argument_original_fallback
    (a : MatchArg) (h : isJsonScalar a.value = false) :
    (isJsonScalar a.original = true →
      (CustomJSONFormatter.serializeArg a).map ArgRec.value = Option.some a.original) ∧
    (isJsonScalar a.original = false →
      CustomJSONFormatter.serializeArg a = Option.none ∧
      ∀ (i : MatchInfo) (st : FmtState), a ∈ i.arguments →
        CustomJSONFormatter.matchStep i st = Option.none) := by
  constructor
  · intro horig
    simp [CustomJSONFormatter.serializeArg, h, horig]
  · intro horig
    have hnone : CustomJSONFormatter.serializeArg a = Option.none := by
      simp [CustomJSONFormatter.serializeArg, h, horig]
    refine ⟨hnone, ?_⟩
    intro i st hmem
    rw [CustomJSONFormatter.matchStep,
      serializeArgs_none_of_mem a i.arguments hmem hnone]

theorem C7_witness :
    (CustomJSONFormatter.serializeArg
        { value := PyVal.list [], original := PyVal.str "orig", name := "" }).map ArgRec.value =
      Option.some (PyVal.str "orig") ∧
    CustomJSONFormatter.serializeArg
        { value := PyVal.dict [], original := PyVal.list [PyVal.int 1], name := "" } =
      Option.none := by
  constructor
  · exact (C7_match_argument_original_fallback
      { value := PyVal.list [], original := PyVal.str "orig", name := "" } rfl).1 rfl
  · exact ((C7_match_argument_original_fallback
      { value := PyVal.dict [], original := PyVal.list [PyVal.int 1], name := "" } rfl).2 rfl).1

theorem pushStepLast_last (s : StepRec) :
    ∀ (es es' : List Element), pushStepLast es s = Option.some es' →
      ∃ e, es.getLast? = Option.some e ∧
        es'.getLast? = Option.some { e with steps := e.steps ++ [s] } := by
  intro es
  induction es with
  | nil =>
      intro es' h
      simp [pushStepLast] at h
  | cons e rest ih =>
      intro es' h
      cases rest with
      | nil =>
          rw [pushStepLast] at h
          cases h
          exact ⟨e, rfl, rfl⟩
      | cons r rs =>
          rw [pushStepLast] at h
          cases hp : pushStepLast (r :: rs) s with
          | none => rw [hp] at h; cases h
          | some es'' =>
              rw [hp] at h
              cases h
              obtain ⟨e0, hlast, hlast'⟩ := ih es'' hp
              refine ⟨e0, ?_, ?_⟩
              · rw [List.getLast?_cons_cons]; exact hlast
              · cases es'' with
                | nil => simp at hlast'
                | cons x xs => rw [List.getLast?_cons_cons]; exact hlast'

/-- Modelled from the amended claim for C8: how a step text should be
stored — no entry for absent or empty text, the list of lines when the
text contains a newline, the single unchanged string otherwise. -/
def amendedStepText : Option String → Option StepText
  | Option.none => Option.none
  | Option.some t =>
      if t = "" then Option.none
      else if containsNewline t then Option.some (StepText.lines (pySplitlines t))
      else Option.some (StepText.single t)

theorem stepTextField_eq_amended (t : Option String) :
    stepTextField t = amendedStepText t := by
  cases t with
  | none => rfl
  | some s => simp [stepTextField, amendedStepText, split_text_into_lines]

/-- C8 (amended): every `step()` call appends exactly one step record to
the current element; the record stores a non-empty newline-free text as
the single unchanged string, a text containing a newline as the list of
its lines, and no text entry at all when the step text is absent or the
empty string. -/
theorem C8_amended_step_text_storage (i : StepInfo) (st st' : FmtState)
    (h : CustomJSONFormatter.step i st = Option.some st') :
    ∃ fd e s, st'.current_feature_data = Option.some fd ∧
      fd.elements.getLast? = Option.some e ∧
      e.steps.getLast? = Option.some s ∧
      s.text = amendedStepText i.text ∧
      s.name = i.name := by
  rw [CustomJSONFormatter.step] at h
  cases hfd0 : st.current_feature_data with
  | none => rw [hfd0] at h; cases h
  | some fd0 =>
      rw [hfd0] at h
      obtain ⟨es, hp, hst'⟩ := Option.map_eq_some'.mp h
      subst hst'
      obtain ⟨e0, _, hlast'⟩ := pushStepLast_last _ fd0.elements es hp
      exact ⟨{ fd0 with elements := es }, _, _, rfl, hlast',
        List.getLast?_concat _, stepTextField_eq_amended i.text, rfl⟩

/-- Shared concrete feature payload for concrete runs. -/
def exFeatureInfo : FeatureInfo :=
  { keyword := "Feature", name := "F", tags := [], location := "f:1",
    description := [], time := "t0" }

/-- Shared concrete scenario payload for concrete runs. -/
def exScenarioInfo : ScenarioInfo :=
  { keyword := "Scenario", name := "S", tags := [], location := "f:3",
    description := [], retry_attempts := 0, time := "t1",
    finalStatusName := "passed", finalRetryAttempts := 0 }

/-- Shared concrete passing result payload for concrete runs. -/
def exResultInfo : ResultInfo :=
  { status := Status.passed, roundedDuration := PyVal.float 0,
    error_message := Option.none, time := "t3" }

/-- A feature with one scenario whose announced step carries the empty
docstring text `""`. -/
def c8Trace : List Ev :=
  [Ev.feature exFeatureInfo, Ev.scenario exScenarioInfo,
   Ev.step { keyword := "Given", step_type := "given", name := "g",
             location := "f:4", text := Option.some "", table := Option.none,
             time := "t2" }]

/-- C8 counterexample: a step whose text is the empty string `""` contains
no newline, yet the step record stores NO text at all (`step.text` is
falsy in Python, so the `text` key is never written), contradicting the
claim that every newline-free text is stored as that single string. -/
theorem C8_counterexample_empty_text_not_stored :
    containsNewline "" = false ∧
    (runEvents initState c8Trace).map
        (fun st => st.current_feature_data.map
          (fun fd => fd.elements.map (fun e => e.steps.map (fun s => s.text.isSome)))) =
      Option.some (Option.some [[false]]) :=
  ⟨by decide, rfl⟩

/-- A formatter state with one feature holding one scenario element and no
steps yet. -/
def exState1 : FmtState :=
  { feature_count := 0,
    current_feature_data := Option.some
      { keyword := "Feature", name := "F", tags := [], location := "f:1",
        status := Option.none, start_time := "t0", end_time := Option.none,
        description := [],
        elements := [
          { typ := "scenario", keyword := "Scenario", name := "S", tags := [],
            location := "f:3", steps := [], status := Option.none,
            start_time := "t1", end_time := Option.none,
            retry_attempts := Option.some 0, description := [] } ] },
    current_scenario := Option.some exScenarioInfo,
    step_index := 0, user_data := [], stream := [] }

/-- A step whose docstring text contains a newline. -/
def exStepNl : StepInfo :=
  { keyword := "Given", step_type := "given", name := "g", location := "f:4",
    text := Option.some "a\nb", table := Option.none, time := "t2" }

theorem C8_witness :
    (CustomJSONFormatter.step exStepNl exState1).map
        (fun st' => st'.current_feature_data.map
          (fun fd => fd.elements.getLast?.map
            (fun e => e.steps.getLast?.map (fun s => s.text)))) =
      Option.some (Option.some (Option.some (Option.some
        (Option.some (StepText.lines ["a", "b"]))))) := by
  obtain ⟨st', hst⟩ : ∃ st', CustomJSONFormatter.step exStepNl exState1 = Option.some st' :=
    ⟨_, rfl⟩
  obtain ⟨fd, e, s, hfd, he, hs, htext, _⟩ :=
    C8_amended_step_text_storage exStepNl exState1 st' hst
  rw [hst, Option.map_some', hfd, Option.map_some', he, Option.map_some', hs,
    Option.map_some', htext]
  rfl

/-- The net effect of one `result()` call on the `CustomContext` store,
read off `CustomJSONFormatter.result`: the three writes under
`"Input Data"` / `"Output Data"` / `"Screenshot Data"` followed by the
three conditional single-key resets. -/
def resultUserDataTransform (ud : UserData) : UserData :=
  let input_data := drainUserData "inputdata" ud
  let output_data := drainUserData "outputdata" ud
  let screenshot_data := drainUserData "screenshot" ud
  let ud3 := set_user_data "Screenshot Data" (PyVal.dict screenshot_data)
    (set_user_data "Output Data" (PyVal.dict output_data)
      (set_user_data "Input Data" (PyVal.dict input_data) ud))
  let ud4 := if input_data.isEmpty then ud3 else reset_user_data "inputdata" ud3
  let ud5 := if output_data.isEmpty then ud4 else reset_user_data "outputdata" ud4
  if screenshot_data.isEmpty then ud5 else reset_user_data "screenshot" ud5

theorem result_user_data_eq (i : ResultInfo) (st st' : FmtState)
    (h : CustomJSONFormatter.result i st = Option.some st') :
    st'.user_data = resultUserDataTransform st.user_data := by
  simp only [CustomJSONFormatter.result] at h
  split at h
  · cases h
  · split at h
    · cases h
    · cases h
      rfl

theorem get_resultUserDataTransform_other (ud : UserData) (k : String)
    (h1 : k ≠ "inputdata") (h2 : k ≠ "outputdata") (h3 : k ≠ "screenshot")
    (h4 : k ≠ "Input Data") (h5 : k ≠ "Output Data") (h6 : k ≠ "Screenshot Data") :
    get_user_data (resultUserDataTransform ud) k = get_user_data ud k := by
  unfold resultUserDataTransform
  by_cases c3 : (drainUserData "screenshot" ud).isEmpty <;>
    by_cases c2 : (drainUserData "outputdata" ud).isEmpty <;>
      by_cases c1 : (drainUserData "inputdata" ud).isEmpty <;>
        simp [c1, c2, c3, reset_user_data,
          get_set_user_data_other _ _ _ _ h1, get_set_user_data_other _ _ _ _ h2,
          get_set_user_data_other _ _ _ _ h3, get_set_user_data_other _ _ _ _ h4,
          get_set_user_data_other _ _ _ _ h5, get_set_user_data_other _ _ _ _ h6]

/-- C1 (amended): after a `result()` call, only the literal keys
`"inputdata"` / `"outputdata"` / `"screenshot"` are set to null, and each
only when the corresponding harvested mapping was non-empty; every other
user-data key except the three `"... Data"` write-back keys keeps its
pre-step value, so a key that merely starts with one of the prefixes
(such as `"inputdata_x"`) is NOT reset. -/
theorem C1_amended_reset_only_literal_keys (i : ResultInfo) (st st' : FmtState)
    (h : CustomJSONFormatter.result i st = Option.some st') :
    (∀ k, k ∉ (["inputdata", "outputdata", "screenshot",
                "Input Data", "Output Data", "Screenshot Data"] : List String) →
       get_user_data st'.user_data k = get_user_data st.user_data k) ∧
    ((drainUserData "inputdata" st.user_data).isEmpty = false →
       get_user_data st'.user_data "inputdata" = PyVal.none) ∧
    ((drainUserData "outputdata" st.user_data).isEmpty = false →
       get_user_data st'.user_data "outputdata" = PyVal.none) ∧
    ((drainUserData "screenshot" st.user_data).isEmpty = false →
       get_user_data st'.user_data "screenshot" = PyVal.none) := by
  rw [result_user_data_eq i st st' h]
  refine ⟨?_, ?_, ?_, ?_⟩
  · intro k hk
    simp only [List.mem_cons, List.not_mem_nil, or_false, not_or] at hk
    obtain ⟨h1, h2, h3, h4, h5, h6⟩ := hk
    exact get_resultUserDataTransform_other st.user_data k h1 h2 h3 h4 h5 h6
  · intro hne
    unfold resultUserDataTransform
    by_cases c3 : (drainUserData "screenshot" st.user_data).isEmpty <;>
      by_cases c2 : (drainUserData "outputdata" st.user_data).isEmpty <;>
        simp [c3, c2, hne, reset_user_data, get_set_user_data_same,
          get_set_user_data_other _ _ _ _ (by decide : ("inputdata" : String) ≠ "outputdata"),
          get_set_user_data_other _ _ _ _ (by decide : ("inputdata" : String) ≠ "screenshot")]
  · intro hne
    unfold resultUserDataTransform
    by_cases c3 : (drainUserData "screenshot" st.user_data).isEmpty <;>
      by_cases c1 : (drainUserData "inputdata" st.user_data).isEmpty <;>
        simp [c3, c1, hne, reset_user_data, get_set_user_data_same,
          get_set_user_data_other _ _ _ _ (by decide : ("outputdata" : String) ≠ "screenshot")]
  · intro hne
    unfold resultUserDataTransform
    simp [hne, reset_user_data, get_set_user_data_same]

/-- A step without docstring text. -/
def exStepPlain : StepInfo :=
  { keyword := "Given", step_type := "given", name := "g", location := "f:4",
    text := Option.none, table := Option.none, time := "t2" }

/-- A run in which a step definition stored `inputdata_x = 1` in the
context store before the step completed. -/
def c1Trace : List Ev :=
  [Ev.feature exFeatureInfo, Ev.scenario exScenarioInfo, Ev.step exStepPlain,
   Ev.setUserData "inputdata_x" (PyVal.int 1), Ev.result exResultInfo]

/-- C1 counterexample: `"inputdata_x"` starts with the prefix
`"inputdata"` and is harvested into the `Test_data` of the step, yet after the
`result()` call its store value is still `1`, not null — the reset at the
end of `result()` assigns null only to the literal key `"inputdata"`. -/
theorem C1_counterexample_prefixed_key_not_reset :
    pyStartsWith "inputdata_x" "inputdata" = true ∧
    (runEvents initState c1Trace).map
        (fun st => get_user_data st.user_data "inputdata_x") =
      Option.some (PyVal.int 1) ∧
    PyVal.int 1 ≠ PyVal.none :=
  ⟨by decide, rfl, fun hc => PyVal.noConfusion hc⟩

/-- The step record produced by `exStepPlain`. -/
def exStepRec : StepRec :=
  { keyword := "Given", step_type := "given", name := "g", location := "f:4",
    start_time := "t2", end_time := Option.none, text := Option.none,
    table := Option.none, matchData := Option.none, Test_data := Option.none,
    Test_Output_data := Option.none, Screenshot_data := Option.none,
    result := Option.none }

/-- A formatter state mid-scenario: one announced step awaiting its result,
and a store holding one unrelated key and one `inputdata`-prefixed key. -/
def exStateC1 : FmtState :=
  { feature_count := 0,
    current_feature_data := Option.some
      { keyword := "Feature", name := "F", tags := [], location := "f:1",
        status := Option.none, start_time := "t0", end_time := Option.none,
        description := [],
        elements := [
          { typ := "scenario", keyword := "Scenario", name := "S", tags := [],
            location := "f:3", steps := [exStepRec], status := Option.none,
            start_time := "t1", end_time := Option.none,
            retry_attempts := Option.some 0, description := [] } ] },
    current_scenario := Option.some exScenarioInfo,
    step_index := 0,
    user_data := [("other", PyVal.int 7), ("inputdata_a", PyVal.int 1)],
    stream := [] }

theorem C1_witness :
    (CustomJSONFormatter.result exResultInfo exStateC1).map
        (fun st' => (get_user_data st'.user_data "other",
                     get_user_data st'.user_data "inputdata")) =
      Option.some (PyVal.int 7, PyVal.none) := by
  obtain ⟨st', hst⟩ :
      ∃ st', CustomJSONFormatter.result exResultInfo exStateC1 = Option.some st' := ⟨_, rfl⟩
  have h := C1_amended_reset_only_literal_keys exResultInfo exStateC1 st' hst
  rw [hst, Option.map_some', h.1 "other" (by decide), h.2.1 (by rfl)]
  rfl

/-- C10: every successful `result()` call writes the three just-harvested
mappings back into the store under `"Input Data"`, `"Output Data"` and
`"Screenshot Data"`; since the per-step reset touches only the lowercase
literal keys `"inputdata"` / `"outputdata"` / `"screenshot"`, the three
write-back keys hold those dict values (never null) afterwards, so they
persist in the store across subsequent steps. -/
theorem C10_result_writes_back_drained_data (i : ResultInfo) (st st' : FmtState)
    (h : CustomJSONFormatter.result i st = Option.some st') :
    get_user_data st'.user_data "Input Data" =
      PyVal.dict (drainUserData "inputdata" st.user_data) ∧
    get_user_data st'.user_data "Output Data" =
      PyVal.dict (drainUserData "outputdata" st.user_data) ∧
    get_user_data st'.user_data "Screenshot Data" =
      PyVal.dict (drainUserData "screenshot" st.user_data) ∧
    get_user_data st'.user_data "Input Data" ≠ PyVal.none ∧
    get_user_data st'.user_data "Output Data" ≠ PyVal.none ∧
    get_user_data st'.user_data "Screenshot Data" ≠ PyVal.none := by
  rw [result_user_data_eq i st st' h]
  have hin : get_user_data (resultUserDataTransform st.user_data) "Input Data" =
      PyVal.dict (drainUserData "inputdata" st.user_data) := by
    unfold resultUserDataTransform
    by_cases c3 : (drainUserData "screenshot" st.user_data).isEmpty <;>
      by_cases c2 : (drainUserData "outputdata" st.user_data).isEmpty <;>
        by_cases c1 : (drainUserData "inputdata" st.user_data).isEmpty <;>
          simp [c1, c2, c3, reset_user_data, get_set_user_data_same,
            get_set_user_data_other _ _ _ _
              (by decide : ("Input Data" : String) ≠ "inputdata"),
            get_set_user_data_other _ _ _ _
              (by decide : ("Input Data" : String) ≠ "outputdata"),
            get_set_user_data_other _ _ _ _
              (by decide : ("Input Data" : String) ≠ "screenshot"),
            get_set_user_data_other _ _ _ _
              (by decide : ("Input Data" : String) ≠ "Output Data"),
            get_set_user_data_other _ _ _ _
              (by decide : ("Input Data" : String) ≠ "Screenshot Data")]
  have hout : get_user_data (resultUserDataTransform st.user_data) "Output Data" =
      PyVal.dict (drainUserData "outputdata" st.user_data) := by
    unfold resultUserDataTransform
    by_cases c3 : (drainUserData "screenshot" st.user_data).isEmpty <;>
      by_cases c2 : (drainUserData "outputdata" st.user_data).isEmpty <;>
        by_cases c1 : (drainUserData "inputdata" st.user_data).isEmpty <;>
          simp [c1, c2, c3, reset_user_data, get_set_user_data_same,
            get_set_user_data_other _ _ _ _
              (by decide : ("Output Data" : String) ≠ "inputdata"),
            get_set_user_data_other _ _ _ _
              (by decide : ("Output Data" : String) ≠ "outputdata"),
            get_set_user_data_other _ _ _ _
              (by decide : ("Output Data" : String) ≠ "screenshot"),
            get_set_user_data_other _ _ _ _
              (by decide : ("Output Data" : String) ≠ "Screenshot Data")]
  have hscr : get_user_data (resultUserDataTransform st.user_data) "Screenshot Data" =
      PyVal.dict (drainUserData "screenshot" st.user_data) := by
    unfold resultUserDataTransform
    by_cases c3 : (drainUserData "screenshot" st.user_data).isEmpty <;>
      by_cases c2 : (drainUserData "outputdata" st.user_data).isEmpty <;>
        by_cases c1 : (drainUserData "inputdata" st.user_data).isEmpty <;>
          simp [c1, c2, c3, reset_user_data, get_set_user_data_same,
            get_set_user_data_other _ _ _ _
              (by decide : ("Screenshot Data" : String) ≠ "inputdata"),
            get_set_user_data_other _ _ _ _
              (by decide : ("Screenshot Data" : String) ≠ "outputdata"),
            get_set_user_data_other _ _ _ _
              (by decide : ("Screenshot Data" : String) ≠ "screenshot")]
  refine ⟨hin, hout, hscr, ?_, ?_, ?_⟩
  · rw [hin]; exact fun hc => PyVal.noConfusion hc
  · rw [hout]; exact fun hc => PyVal.noConfusion hc
  · rw [hscr]; exact fun hc => PyVal.noConfusion hc

theorem C10_witness :
    (CustomJSONFormatter.result exResultInfo exStateC1).map
        (fun st' => (get_user_data st'.user_data "Input Data",
                     get_user_data st'.user_data "Output Data",
                     get_user_data st'.user_data "Screenshot Data")) =
      Option.some (PyVal.dict [("inputdata_a", PyVal.int 1)],
                   PyVal.dict [], PyVal.dict []) := by
  obtain ⟨st', hst⟩ :
      ∃ st', CustomJSONFormatter.result exResultInfo exStateC1 = Option.some st' := ⟨_, rfl⟩
  have h := C10_result_writes_back_drained_data exResultInfo exStateC1 st' hst
  rw [hst, Option.map_some', h.1, h.2.1, h.2.2.1]
  rfl

/-- The step-list length of each element of an element list. -/
def shapeOfElements (es : List Element) : List Nat :=
  es.map (fun e => e.steps.length)

/-- The step-list length of each element of a feature record. -/
def shapeOfFd (fd : FeatureData) : List Nat :=
  shapeOfElements fd.elements

/-- The shapes of the feature records written to the stream so far, in
write order. -/
def streamShapes (cs : List Chunk) : List (List Nat) :=
  cs.filterMap (fun c =>
    match c with
    | Chunk.feature fd => Option.some (shapeOfFd fd)
    | _ => Option.none)

/-- The shape of the feature currently being built, if any. -/
def curShape (st : FmtState) : Option (List Nat) :=
  st.current_feature_data.map shapeOfFd

/-- Increment the last entry of a list of counts. -/
def bumpLast : List Nat → List Nat
  | [] => []
  | n :: rest =>
      match rest with
      | [] => [n + 1]
      | r :: rs => n :: bumpLast (r :: rs)

/-- Modelled from the claim wording for C5: an abstract counting state —
the per-element step counts of the features already emitted, those of the
feature currently being built (`Option.none` when no feature is open), and
the per-element step cursor. -/
structure SpecSt where
  emitted : List (List Nat)
  cur : Option (List Nat)
  cursor : Nat

/-- Modelled from the claim wording for C5: a feature opens an empty
element-count list; each element start appends a fresh count (zero for a
scenario, its own step count for a background, since
`background()` immediately replays its steps) and resets the cursor to
zero; each `onStep` increments the count of the current element; each
`onStepResult` advances the cursor by exactly one; `eof` emits the counts
of the open feature. -/
def specStep (sp : SpecSt) : Ev → SpecSt
  | Ev.feature _ => { emitted := sp.emitted, cur := Option.some [], cursor := 0 }
  | Ev.background i => { sp with cur := sp.cur.map (fun l => l ++ [i.steps.length]), cursor := 0 }
  | Ev.scenario _ => { sp with cur := sp.cur.map (fun l => l ++ [0]), cursor := 0 }
  | Ev.step _ => { sp with cur := sp.cur.map bumpLast }
  | Ev.matchEv _ => sp
  | Ev.result _ => { sp with cursor := sp.cursor + 1 }
  | Ev.setUserData _ _ => sp
  | Ev.eof _ _ =>
      match sp.cur with
      | Option.some l => { emitted := sp.emitted ++ [l], cur := Option.none, cursor := 0 }
      | Option.none => sp

def specRun (sp : SpecSt) : List Ev → SpecSt
  | [] => sp
  | e :: t => specRun (specStep sp e) t

def initSpec : SpecSt := { emitted := [], cur := Option.none, cursor := 0 }

/-- All match arguments can be serialized (value or original is a JSON-safe
scalar), so the assertion in `match()` cannot fire. -/
def argsOk (i : MatchInfo) : Bool :=
  i.arguments.all (fun a => isJsonScalar a.value || isJsonScalar a.original)

/-- Well-formedness of an event trace, tracking whether a feature is open
(`hf`), whether an element is open (`he`), the announced
step count (`ns`) and its completed step count (`nr`): every element is
preceded by a feature, every `result` by a matching earlier `step` of the
same element, and match arguments never trip the scalar assertion. -/
def wfFrom : Bool → Bool → Nat → Nat → List Ev → Bool
  | _, _, _, _, [] => true
  | _, _, _, _, Ev.feature _ :: t => wfFrom true false 0 0 t
  | hf, _, _, _, Ev.background i :: t => hf && wfFrom true true i.steps.length 0 t
  | hf, _, _, _, Ev.scenario _ :: t => hf && wfFrom true true 0 0 t
  | hf, he, ns, nr, Ev.step _ :: t => hf && he && wfFrom hf he (ns + 1) nr t
  | hf, he, ns, nr, Ev.matchEv i :: t =>
      argsOk i && (i.location.isNone || (hf && he && decide (nr < ns))) &&
        wfFrom hf he ns nr t
  | hf, he, ns, nr, Ev.result _ :: t =>
      hf && he && decide (nr < ns) && wfFrom hf he ns (nr + 1) t
  | hf, he, ns, nr, Ev.setUserData _ _ :: t => wfFrom hf he ns nr t
  | _, _, _, _, Ev.eof _ _ :: t => wfFrom false false 0 0 t

/-- A well-formed full trace starts with no feature and no element open. -/
def wfTrace (t : List Ev) : Bool := wfFrom false false 0 0 t

/-- The stream layout after `n` features have been written: nothing at all
before the first feature, then the header, the first feature, and a
separator before each further feature. -/
def assembleChunks : List FeatureData → List Chunk
  | [] => []
  | f :: rest =>
      Chunk.header :: Chunk.feature f ::
        rest.flatMap (fun g => [Chunk.sep, Chunk.feature g])

theorem bumpLast_ne_nil : ∀ l : List Nat, l ≠ [] → bumpLast l ≠ [] := by
  intro l h
  cases l with
  | nil => exact absurd rfl h
  | cons x rest =>
      cases rest with
      | nil => simp [bumpLast]
      | cons r rs => simp [bumpLast]

theorem bumpLast_getLast? :
    ∀ (l : List Nat) (n : Nat), l.getLast? = Option.some n →
      (bumpLast l).getLast? = Option.some (n + 1) := by
  intro l
  induction l with
  | nil => intro n h; cases h
  | cons x rest ih =>
      intro n h
      cases rest with
      | nil =>
          cases h
          rfl
      | cons r rs =>
          rw [List.getLast?_cons_cons] at h
          rw [bumpLast]
          have hres := ih n h
          cases hb : bumpLast (r :: rs) with
          | nil => exact absurd hb (bumpLast_ne_nil (r :: rs) (by simp))
          | cons y ys =>
              rw [hb] at hres
              rw [List.getLast?_cons_cons]
              exact hres

theorem mapLastElement_shape (g : Element → Element)
    (hg : ∀ e, (g e).steps = e.steps) :
    ∀ es, shapeOfElements (mapLastElement g es) = shapeOfElements es := by
  intro es
  induction es with
  | nil => rfl
  | cons e rest ih =>
      cases rest with
      | nil => simp [mapLastElement, shapeOfElements, hg]
      | cons r rs =>
          rw [mapLastElement]
          simp only [shapeOfElements, List.map_cons] at ih ⊢
          rw [ih]

theorem pushStepLast_shape (s : StepRec) :
    ∀ es : List Element, es ≠ [] →
      ∃ es', pushStepLast es s = Option.some es' ∧
        shapeOfElements es' = bumpLast (shapeOfElements es) := by
  intro es
  induction es with
  | nil => intro h; exact absurd rfl h
  | cons e rest ih =>
      intro _
      cases rest with
      | nil =>
          refine ⟨_, rfl, ?_⟩
          simp [shapeOfElements, bumpLast]
      | cons r rs =>
          obtain ⟨es'', hp, hshape⟩ := ih (by simp)
          rw [pushStepLast, hp]
          refine ⟨e :: es'', rfl, ?_⟩
          simp only [shapeOfElements, List.map_cons] at hshape ⊢
          rw [hshape]
          rfl

theorem setLastStep_shape (idx : Nat) (f : StepRec → StepRec) :
    ∀ (es : List Element) (n : Nat),
      (shapeOfElements es).getLast? = Option.some n → idx < n →
      ∃ es', setLastStep es idx f = Option.some es' ∧
        shapeOfElements es' = shapeOfElements es := by
  intro es
  induction es with
  | nil => intro n h; cases h
  | cons e rest ih =>
      intro n hlast hidx
      cases rest with
      | nil =>
          simp only [shapeOfElements, List.map_cons, List.map_nil,
            List.getLast?_singleton, Option.some.injEq] at hlast
          subst hlast
          rw [setLastStep, List.get?_eq_get hidx]
          refine ⟨_, rfl, ?_⟩
          simp [shapeOfElements]
      | cons r rs =>
          simp only [shapeOfElements, List.map_cons] at hlast
          rw [List.getLast?_cons_cons] at hlast
          obtain ⟨es'', hs, hshape⟩ := ih n hlast hidx
          rw [setLastStep, hs]
          refine ⟨e :: es'', rfl, ?_⟩
          simp only [shapeOfElements, List.map_cons] at hshape ⊢
          rw [hshape]

theorem serializeArg_isSome_of_ok (a : MatchArg)
    (h : (isJsonScalar a.value || isJsonScalar a.original) = true) :
    ∃ r, CustomJSONFormatter.serializeArg a = Option.some r := by
  rw [CustomJSONFormatter.serializeArg]
  rcases Bool.or_eq_true_iff.mp h with hv | ho
  · simp [hv]
  · cases hv : isJsonScalar a.value <;> simp [hv, ho]

theorem serializeArgs_isSome_of_argsOk :
    ∀ args : List MatchArg,
      args.all (fun a => isJsonScalar a.value || isJsonScalar a.original) = true →
      ∃ rs, CustomJSONFormatter.serializeArgs args = Option.some rs := by
  intro args
  induction args with
  | nil => intro _; exact ⟨[], rfl⟩
  | cons a rest ih =>
      intro h
      simp only [List.all_cons, Bool.and_eq_true] at h
      obtain ⟨ha, hrest⟩ := h
      obtain ⟨r, hr⟩ := serializeArg_isSome_of_ok a ha
      obtain ⟨rs, hrs⟩ := ih hrest
      rw [CustomJSONFormatter.serializeArgs, hr, hrs]
      exact ⟨r :: rs, rfl⟩

theorem finish_prev_effects (now : String) (st : FmtState) :
    (CustomJSONFormatter.finish_previous_element_data now st).current_feature_data.isSome =
      st.current_feature_data.isSome ∧
    curShape (CustomJSONFormatter.finish_previous_element_data now st) = curShape st ∧
    (CustomJSONFormatter.finish_previous_element_data now st).step_index = st.step_index ∧
    (CustomJSONFormatter.finish_previous_element_data now st).stream = st.stream ∧
    (CustomJSONFormatter.finish_previous_element_data now st).feature_count = st.feature_count ∧
    (CustomJSONFormatter.finish_previous_element_data now st).current_scenario = st.current_scenario ∧
    (CustomJSONFormatter.finish_previous_element_data now st).user_data = st.user_data := by
  rw [CustomJSONFormatter.finish_previous_element_data]
  cases hfd : st.current_feature_data with
  | none => simp [hfd]
  | some fd =>
      cases hsc : st.current_scenario with
      | none => simp [hfd, hsc]
      | some sc =>
          dsimp only
          by_cases he : fd.elements.isEmpty
          · simp [he, hfd, hsc]
          · rw [if_neg he]
            refine ⟨by simp [hfd], ?_, rfl, rfl, rfl, rfl, rfl⟩
            simp only [curShape, hfd, Option.map_some', shapeOfFd]
            rw [mapLastElement_shape]
            intro e
            rw [finishScenarioElement]
            by_cases ht : e.typ = "scenario" <;> simp [ht]

theorem streamShapes_append (a b : List Chunk) :
    streamShapes (a ++ b) = streamShapes a ++ streamShapes b := by
  simp [streamShapes, List.filterMap_append]

theorem assembleChunks_concat (fs : List FeatureData) (g : FeatureData) (h : fs ≠ []) :
    assembleChunks (fs ++ [g]) = assembleChunks fs ++ [Chunk.sep, Chunk.feature g] := by
  cases fs with
  | nil => exact absurd rfl h
  | cons f rest =>
      simp [assembleChunks, List.flatMap_append]

theorem scenario_spec (i : ScenarioInfo) (st : FmtState)
    (h : st.current_feature_data.isSome = true) :
    ∃ st', CustomJSONFormatter.scenario i st = Option.some st' ∧
      st'.current_feature_data.isSome = true ∧
      curShape st' = (curShape st).map (fun l => l ++ [0]) ∧
      st'.step_index = 0 ∧
      st'.stream = st.stream ∧
      st'.feature_count = st.feature_count := by
  have heff := finish_prev_effects i.time st
  obtain ⟨fd1, hfd1⟩ := Option.isSome_iff_exists.mp (by rw [heff.1]; exact h)
  have hstep : CustomJSONFormatter.scenario i st = Option.some
      { CustomJSONFormatter.finish_previous_element_data i.time st with
        current_scenario := Option.some i,
        current_feature_data := Option.some
          { fd1 with elements := fd1.elements ++
              [{ typ := "scenario", keyword := i.keyword, name := i.name,
                 tags := i.tags, location := i.location, steps := [],
                 status := Option.none, start_time := i.time,
                 end_time := Option.none,
                 retry_attempts := Option.some i.retry_attempts,
                 description := i.description }] },
        step_index := 0 } := by
    rw [CustomJSONFormatter.scenario]
    dsimp only
    rw [hfd1]
  refine ⟨_, hstep, rfl, ?_, rfl, ?_, ?_⟩
  · rw [← heff.2.1]
    simp only [curShape, hfd1, Option.map_some', shapeOfFd, shapeOfElements,
      List.map_append, List.map_cons, List.map_nil, List.length_nil]
  · exact heff.2.2.2.1 ▸ rfl
  · exact heff.2.2.2.2.1 ▸ rfl

theorem getLast?_some_ne_nil {α : Type} {l : List α} {a : α}
    (h : l.getLast? = Option.some a) : l ≠ [] := by
  intro hn
  subst hn
  cases h

theorem step_spec (i : StepInfo) (st : FmtState) (fd : FeatureData)
    (hfd : st.current_feature_data = Option.some fd) (hne : fd.elements ≠ []) :
    ∃ es', CustomJSONFormatter.step i st =
        Option.some { st with current_feature_data := Option.some { fd with elements := es' } } ∧
      shapeOfElements es' = bumpLast (shapeOfElements fd.elements) ∧
      es' ≠ [] := by
  obtain ⟨es', hp, hs⟩ := pushStepLast_shape
    { keyword := i.keyword, step_type := i.step_type, name := i.name,
      location := i.location, start_time := i.time, end_time := Option.none,
      text := stepTextField i.text, table := i.table, matchData := Option.none,
      Test_data := Option.none, Test_Output_data := Option.none,
      Screenshot_data := Option.none, result := Option.none }
    fd.elements hne
  have h1 : shapeOfElements fd.elements ≠ [] := by
    simp only [shapeOfElements, ne_eq, List.map_eq_nil_iff]
    exact hne
  refine ⟨es', ?_, hs, ?_⟩
  · simp only [CustomJSONFormatter.step, hfd, hp, Option.map_some']
  · intro hnil
    rw [hnil] at hs
    exact bumpLast_ne_nil _ h1 hs.symm

theorem result_spec (i : ResultInfo) (st : FmtState) (fd : FeatureData) (n : Nat)
    (hfd : st.current_feature_data = Option.some fd)
    (hlast : (shapeOfElements fd.elements).getLast? = Option.some n)
    (hidx : st.step_index < n) :
    ∃ st', CustomJSONFormatter.result i st = Option.some st' ∧
      st'.current_feature_data.isSome = true ∧
      curShape st' = curShape st ∧
      st'.step_index = st.step_index + 1 ∧
      st'.stream = st.stream ∧
      st'.feature_count = st.feature_count := by
  have hsome : ∀ f, ∃ es', setLastStep fd.elements st.step_index f = Option.some es' ∧
      shapeOfElements es' = shapeOfElements fd.elements :=
    fun f => setLastStep_shape st.step_index f fd.elements n hlast hidx
  cases hres : CustomJSONFormatter.result i st with
  | none =>
      exfalso
      simp only [CustomJSONFormatter.result, hfd] at hres
      split at hres
      · rename_i heq
        obtain ⟨es', hsl, _⟩ := hsome _
        rw [hsl] at heq
        cases heq
      · cases hres
  | some st' =>
      have hfields : st'.current_feature_data.isSome = true ∧
          curShape st' = curShape st ∧ st'.step_index = st.step_index + 1 ∧
          st'.stream = st.stream ∧ st'.feature_count = st.feature_count := by
        simp only [CustomJSONFormatter.result, hfd] at hres
        split at hres
        · cases hres
        · rename_i es0 heq
          obtain ⟨es'', hsl, hs⟩ := hsome _
          rw [hsl] at heq
          cases heq
          cases hres
          refine ⟨rfl, ?_, rfl, rfl, rfl⟩
          simp only [curShape, hfd, Option.map_some', shapeOfFd]
          rw [hs]
      exact ⟨st', rfl, hfields.1, hfields.2.1, hfields.2.2.1,
        hfields.2.2.2.1, hfields.2.2.2.2⟩

theorem matchStep_spec (i : MatchInfo) (st : FmtState) (hargs : argsOk i = true)
    (hok : i.location.isNone = true ∨
      ∃ fd n, st.current_feature_data = Option.some fd ∧
        (shapeOfElements fd.elements).getLast? = Option.some n ∧ st.step_index < n) :
    ∃ st', CustomJSONFormatter.matchStep i st = Option.some st' ∧
      st'.current_feature_data.isSome = st.current_feature_data.isSome ∧
      curShape st' = curShape st ∧
      st'.step_index = st.step_index ∧
      st'.stream = st.stream ∧
      st'.feature_count = st.feature_count := by
  obtain ⟨rs, hrs⟩ := serializeArgs_isSome_of_argsOk i.arguments hargs
  cases hloc : i.location with
  | none =>
      refine ⟨st, ?_, rfl, rfl, rfl, rfl, rfl⟩
      simp only [CustomJSONFormatter.matchStep, hrs, hloc]
  | some loc =>
      rcases hok with habs | ⟨fd, n, hfd, hlast, hidx⟩
      · rw [hloc] at habs
        cases habs
      · have hsome : ∀ f, ∃ es', setLastStep fd.elements st.step_index f = Option.some es' ∧
            shapeOfElements es' = shapeOfElements fd.elements :=
          fun f => setLastStep_shape st.step_index f fd.elements n hlast hidx
        cases hres : CustomJSONFormatter.matchStep i st with
        | none =>
            exfalso
            simp only [CustomJSONFormatter.matchStep, hrs, hloc, hfd] at hres
            obtain ⟨es', hsl, _⟩ := hsome _
            rw [hsl] at hres
            simp at hres
        | some st' =>
            have hfields : st'.current_feature_data.isSome = true ∧
                curShape st' = curShape st ∧ st'.step_index = st.step_index ∧
                st'.stream = st.stream ∧ st'.feature_count = st.feature_count := by
              simp only [CustomJSONFormatter.matchStep, hrs, hloc, hfd] at hres
              obtain ⟨es'', hsl, hs⟩ := hsome _
              rw [hsl] at hres
              simp only [Option.map_some'] at hres
              cases hres
              refine ⟨rfl, ?_, rfl, rfl, rfl⟩
              simp only [curShape, hfd, Option.map_some', shapeOfFd]
              rw [hs]
            refine ⟨st', rfl, ?_, hfields.2.1, hfields.2.2.1,
              hfields.2.2.2.1, hfields.2.2.2.2⟩
            rw [hfields.1, hfd]
            rfl

theorem bumpLast_append (l : List Nat) (n : Nat) :
    bumpLast (l ++ [n]) = l ++ [n + 1] := by
  induction l with
  | nil => rfl
  | cons x rest ih =>
      cases rest with
      | nil => simp [bumpLast]
      | cons r rs =>
          rw [List.cons_append, List.cons_append, bumpLast]
          rw [List.cons_append] at ih
          rw [ih]
          simp

theorem iterate_bumpLast_append (k : Nat) :
    ∀ (l : List Nat) (n : Nat), bumpLast^[k] (l ++ [n]) = l ++ [n + k] := by
  induction k with
  | zero => intro l n; simp
  | succ k ih =>
      intro l n
      rw [Function.iterate_succ_apply, bumpLast_append, ih]
      congr 2
      omega

theorem runBackgroundSteps_spec :
    ∀ (ss : List StepInfo) (st : FmtState) (fd : FeatureData),
      st.current_feature_data = Option.some fd → fd.elements ≠ [] →
      ∃ st' fd', CustomJSONFormatter.runBackgroundSteps ss st = Option.some st' ∧
        st'.current_feature_data = Option.some fd' ∧
        fd'.elements ≠ [] ∧
        shapeOfElements fd'.elements = bumpLast^[ss.length] (shapeOfElements fd.elements) ∧
        st'.step_index = st.step_index ∧
        st'.stream = st.stream ∧
        st'.feature_count = st.feature_count := by
  intro ss
  induction ss with
  | nil =>
      intro st fd hfd hne
      exact ⟨st, fd, rfl, hfd, hne, by simp, rfl, rfl, rfl⟩
  | cons s ss ih =>
      intro st fd hfd hne
      obtain ⟨es', hstep, hshape, hne'⟩ := step_spec s st fd hfd hne
      obtain ⟨st', fd', hrun, hfd', hne'', hshape', hidx, hstream, hcount⟩ :=
        ih { st with current_feature_data := Option.some { fd with elements := es' } }
          { fd with elements := es' } rfl hne'
      refine ⟨st', fd', ?_, hfd', hne'', ?_, hidx, hstream, hcount⟩
      · rw [CustomJSONFormatter.runBackgroundSteps, hstep]
        exact hrun
      · rw [hshape']
        show bumpLast^[ss.length] (shapeOfElements es') = _
        rw [hshape, List.length_cons, Function.iterate_succ_apply]

theorem background_spec (i : BackgroundInfo) (st : FmtState)
    (h : st.current_feature_data.isSome = true) :
    ∃ st', CustomJSONFormatter.background i st = Option.some st' ∧
      st'.current_feature_data.isSome = true ∧
      curShape st' = (curShape st).map (fun l => l ++ [i.steps.length]) ∧
      st'.step_index = 0 ∧
      st'.stream = st.stream ∧
      st'.feature_count = st.feature_count := by
  have heff := finish_prev_effects i.time st
  obtain ⟨fd1, hfd1⟩ := Option.isSome_iff_exists.mp (by rw [heff.1]; exact h)
  have hmid : CustomJSONFormatter.background i st =
      CustomJSONFormatter.runBackgroundSteps i.steps
        { CustomJSONFormatter.finish_previous_element_data i.time st with
          current_feature_data := Option.some
            { fd1 with elements := fd1.elements ++
                [{ typ := "background", keyword := i.keyword, name := i.name,
                   tags := [], location := i.location, steps := [],
                   status := Option.some "", start_time := i.time,
                   end_time := Option.none, retry_attempts := Option.none,
                   description := [] }] },
          step_index := 0 } := by
    rw [CustomJSONFormatter.background]
    dsimp only
    rw [hfd1]
  obtain ⟨st', fd', hrun, hfd', _, hshape', hidx, hstream, hcount⟩ :=
    runBackgroundSteps_spec i.steps
      { CustomJSONFormatter.finish_previous_element_data i.time st with
        current_feature_data := Option.some
          { fd1 with elements := fd1.elements ++
              [{ typ := "background", keyword := i.keyword, name := i.name,
                 tags := [], location := i.location, steps := [],
                 status := Option.some "", start_time := i.time,
                 end_time := Option.none, retry_attempts := Option.none,
                 description := [] }] },
        step_index := 0 }
      { fd1 with elements := fd1.elements ++
          [{ typ := "background", keyword := i.keyword, name := i.name,
             tags := [], location := i.location, steps := [],
             status := Option.some "", start_time := i.time,
             end_time := Option.none, retry_attempts := Option.none,
             description := [] }] }
      rfl (by simp)
  refine ⟨st', ?_, ?_, ?_, ?_, ?_, ?_⟩
  · rw [hmid]
    exact hrun
  · rw [hfd']
    rfl
  · rw [← heff.2.1]
    simp only [curShape, hfd1, Option.map_some', shapeOfFd, hfd']
    rw [hshape']
    show Option.some (bumpLast^[i.steps.length]
      (shapeOfElements (fd1.elements ++ [_]))) = _
    rw [shapeOfElements, List.map_append]
    show Option.some (bumpLast^[i.steps.length]
      (List.map (fun e => e.steps.length) fd1.elements ++ [0])) = _
    rw [iterate_bumpLast_append]
    simp [shapeOfElements]
  · rw [hidx]
  · rw [hstream, heff.2.2.2.1]
  · rw [hcount, heff.2.2.2.2.1]

theorem eof_spec_none (now fstat : String) (st : FmtState)
    (h : st.current_feature_data = Option.none) :
    CustomJSONFormatter.eof now fstat st = st := by
  rw [CustomJSONFormatter.eof, h]

theorem eof_spec_some (now fstat : String) (st : FmtState) (fd : FeatureData)
    (hfd : st.current_feature_data = Option.some fd) :
    ∃ fdOut, shapeOfFd fdOut = shapeOfFd fd ∧
      CustomJSONFormatter.eof now fstat st =
        { st with current_feature_data := Option.none,
                  current_scenario := Option.none,
                  step_index := 0,
                  feature_count := st.feature_count + 1,
                  stream := st.stream ++
                    [if st.feature_count = 0 then Chunk.header else Chunk.sep,
                     Chunk.feature fdOut] } := by
  have heff := finish_prev_effects now st
  obtain ⟨fd1, hfd1⟩ := Option.isSome_iff_exists.mp (by rw [heff.1, hfd]; rfl)
  have hshape1 : shapeOfFd fd1 = shapeOfFd fd := by
    have hcur := heff.2.1
    rw [curShape, curShape, hfd1, hfd] at hcur
    simpa using hcur
  refine ⟨{ fd1 with status := Option.some fstat, end_time := Option.some now },
    hshape1, ?_⟩
  simp only [CustomJSONFormatter.eof, hfd, hfd1, writeChunk]
  rw [heff.2.2.2.1, heff.2.2.2.2.1, heff.2.2.2.2.2.2]
  by_cases hc : st.feature_count = 0
  · simp [hc, List.append_assoc]
  · simp [hc, List.append_assoc]

theorem runEvents_cons_some (st st1 : FmtState) (e : Ev) (t : List Ev)
    (h : stepEv st e = Option.some st1) :
    runEvents st (e :: t) = runEvents st1 t := by
  rw [runEvents, h]

theorem curShape_isSome (st : FmtState) :
    (curShape st).isSome = st.current_feature_data.isSome := by
  rw [curShape]
  cases st.current_feature_data <;> rfl

theorem runEvents_wf_sound :
    ∀ (t : List Ev) (hf he : Bool) (ns nr : Nat) (st : FmtState) (sp : SpecSt),
      wfFrom hf he ns nr t = true →
      st.current_feature_data.isSome = hf →
      (he = true → ∃ shape, curShape st = Option.some shape ∧
          shape.getLast? = Option.some ns ∧ st.step_index = nr) →
      streamShapes st.stream = sp.emitted →
      curShape st = sp.cur →
      st.step_index = sp.cursor →
      (∃ fs, st.stream = assembleChunks fs ∧ fs.length = st.feature_count) →
      ∃ st', runEvents st t = Option.some st' ∧
        streamShapes st'.stream = (specRun sp t).emitted ∧
        curShape st' = (specRun sp t).cur ∧
        st'.step_index = (specRun sp t).cursor ∧
        (∃ fs, st'.stream = assembleChunks fs ∧ fs.length = st'.feature_count) := by
  intro t
  induction t with
  | nil =>
      intro hf he ns nr st sp hwf hisSome helem hemit hcur hcursor hstream
      exact ⟨st, rfl, hemit, hcur, hcursor, hstream⟩
  | cons e t ih =>
      intro hf he ns nr st sp hwf hisSome helem hemit hcur hcursor hstream
      cases e with
      | feature i =>
          rw [wfFrom] at hwf
          exact ih true false 0 0 (CustomJSONFormatter.feature i st)
            (specStep sp (Ev.feature i)) hwf rfl (fun h => Bool.noConfusion h)
            hemit rfl rfl hstream
      | setUserData k v =>
          rw [wfFrom] at hwf
          exact ih hf he ns nr { st with user_data := set_user_data k v st.user_data } sp
            hwf hisSome helem hemit hcur hcursor hstream
      | scenario i =>
          simp only [wfFrom, Bool.and_eq_true] at hwf
          obtain ⟨hhf, hwf'⟩ := hwf
          obtain ⟨st1, hstep, hisSome1, hcur1, hidx1, hstream1, hcount1⟩ :=
            scenario_spec i st (by rw [hisSome, hhf])
          obtain ⟨s0, hs0⟩ := Option.isSome_iff_exists.mp
            (by rw [curShape_isSome, hisSome, hhf] : (curShape st).isSome = true)
          obtain ⟨fs, hfs, hfslen⟩ := hstream
          obtain ⟨st', hrun', hA, hB, hC, hD⟩ := ih true true 0 0 st1
            (specStep sp (Ev.scenario i)) hwf' hisSome1
            (fun _ => ⟨s0 ++ [0], by rw [hcur1, hs0]; rfl,
              List.getLast?_concat s0, hidx1⟩)
            (by rw [hstream1]; exact hemit)
            (by rw [hcur1, hcur]; rfl)
            (by rw [hidx1]; rfl)
            ⟨fs, by rw [hstream1, hfs], by rw [hcount1, hfslen]⟩
          exact ⟨st', by
            rw [runEvents_cons_some st st1 (Ev.scenario i) t
              (show stepEv st (Ev.scenario i) = Option.some st1 from hstep)]
            exact hrun', hA, hB, hC, hD⟩
      | background i =>
          simp only [wfFrom, Bool.and_eq_true] at hwf
          obtain ⟨hhf, hwf'⟩ := hwf
          obtain ⟨st1, hstep, hisSome1, hcur1, hidx1, hstream1, hcount1⟩ :=
            background_spec i st (by rw [hisSome, hhf])
          obtain ⟨s0, hs0⟩ := Option.isSome_iff_exists.mp
            (by rw [curShape_isSome, hisSome, hhf] : (curShape st).isSome = true)
          obtain ⟨fs, hfs, hfslen⟩ := hstream
          obtain ⟨st', hrun', hA, hB, hC, hD⟩ := ih true true i.steps.length 0 st1
            (specStep sp (Ev.background i)) hwf' hisSome1
            (fun _ => ⟨s0 ++ [i.steps.length], by rw [hcur1, hs0]; rfl,
              List.getLast?_concat s0, hidx1⟩)
            (by rw [hstream1]; exact hemit)
            (by rw [hcur1, hcur]; rfl)
            (by rw [hidx1]; rfl)
            ⟨fs, by rw [hstream1, hfs], by rw [hcount1, hfslen]⟩
          exact ⟨st', by
            rw [runEvents_cons_some st st1 (Ev.background i) t
              (show stepEv st (Ev.background i) = Option.some st1 from hstep)]
            exact hrun', hA, hB, hC, hD⟩
      | step i =>
          simp only [wfFrom, Bool.and_eq_true] at hwf
          obtain ⟨⟨hhf, hhe⟩, hwf'⟩ := hwf
          obtain ⟨shape, hshape, hlastns, hidxnr⟩ := helem hhe
          obtain ⟨fd, hfd⟩ := Option.isSome_iff_exists.mp (by rw [hisSome, hhf])
          have hfdshape : shapeOfFd fd = shape := by
            rw [curShape, hfd] at hshape
            simpa using hshape
          have hne : fd.elements ≠ [] := by
            intro hnil
            apply getLast?_some_ne_nil hlastns
            rw [← hfdshape, shapeOfFd, hnil]
            rfl
          obtain ⟨es', hstep, hshape', hne'⟩ := step_spec i st fd hfd hne
          obtain ⟨fs, hfs, hfslen⟩ := hstream
          obtain ⟨st', hrun', hA, hB, hC, hD⟩ := ih hf he (ns + 1) nr
            { st with current_feature_data := Option.some { fd with elements := es' } }
            (specStep sp (Ev.step i)) hwf' (by rw [hhf]; rfl)
            (fun _ => ⟨bumpLast shape, by
                simp only [curShape, Option.map_some', shapeOfFd]
                rw [hshape', show shapeOfElements fd.elements = shapeOfFd fd from rfl,
                  hfdshape],
              bumpLast_getLast? shape ns hlastns, hidxnr⟩)
            hemit
            (by
              simp only [curShape, Option.map_some', shapeOfFd, specStep]
              rw [hshape', ← hcur, curShape, hfd, Option.map_some']
              rw [show shapeOfElements fd.elements = shapeOfFd fd from rfl, hfdshape]
              rfl)
            hcursor
            ⟨fs, hfs, hfslen⟩
          exact ⟨st', by
            rw [runEvents_cons_some st _ (Ev.step i) t
              (show stepEv st (Ev.step i) = Option.some _ from hstep)]
            exact hrun', hA, hB, hC, hD⟩
      | result i =>
          simp only [wfFrom, Bool.and_eq_true] at hwf
          obtain ⟨⟨⟨hhf, hhe⟩, hlt⟩, hwf'⟩ := hwf
          have hltn : nr < ns := of_decide_eq_true hlt
          obtain ⟨shape, hshape, hlastns, hidxnr⟩ := helem hhe
          obtain ⟨fd, hfd⟩ := Option.isSome_iff_exists.mp (by rw [hisSome, hhf])
          have hfdshape : shapeOfFd fd = shape := by
            rw [curShape, hfd] at hshape
            simpa using hshape
          obtain ⟨st1, hstep, hisSome1, hcur1, hidx1, hstream1, hcount1⟩ :=
            result_spec i st fd ns hfd
              (by rw [show shapeOfElements fd.elements = shapeOfFd fd from rfl, hfdshape]
                  exact hlastns)
              (by rw [hidxnr]; exact hltn)
          obtain ⟨fs, hfs, hfslen⟩ := hstream
          obtain ⟨st', hrun', hA, hB, hC, hD⟩ := ih hf he ns (nr + 1) st1
            (specStep sp (Ev.result i)) hwf' (by rw [hisSome1, hhf])
            (fun _ => ⟨shape, by rw [hcur1]; exact hshape, hlastns,
              by rw [hidx1, hidxnr]⟩)
            (by rw [hstream1]; exact hemit)
            (by rw [hcur1]; exact hcur)
            (by rw [hidx1, hcursor]; rfl)
            ⟨fs, by rw [hstream1, hfs], by rw [hcount1, hfslen]⟩
          exact ⟨st', by
            rw [runEvents_cons_some st st1 (Ev.result i) t
              (show stepEv st (Ev.result i) = Option.some st1 from hstep)]
            exact hrun', hA, hB, hC, hD⟩
      | matchEv i =>
          simp only [wfFrom, Bool.and_eq_true] at hwf
          obtain ⟨⟨hargs, hcond⟩, hwf'⟩ := hwf
          have hok : i.location.isNone = true ∨
              ∃ fd n, st.current_feature_data = Option.some fd ∧
                (shapeOfElements fd.elements).getLast? = Option.some n ∧
                st.step_index < n := by
            rcases Bool.or_eq_true_iff.mp hcond with hl | hr
            · exact Or.inl hl
            · simp only [Bool.and_eq_true] at hr
              obtain ⟨⟨hhf, hhe⟩, hlt⟩ := hr
              obtain ⟨shape, hshape, hlastns, hidxnr⟩ := helem hhe
              obtain ⟨fd, hfd⟩ := Option.isSome_iff_exists.mp (by rw [hisSome, hhf])
              have hfdshape : shapeOfFd fd = shape := by
                rw [curShape, hfd] at hshape
                simpa using hshape
              refine Or.inr ⟨fd, ns, hfd, ?_, ?_⟩
              · rw [show shapeOfElements fd.elements = shapeOfFd fd from rfl, hfdshape]
                exact hlastns
              · rw [hidxnr]
                exact of_decide_eq_true hlt
          obtain ⟨st1, hstep, hisSome1, hcur1, hidx1, hstream1, hcount1⟩ :=
            matchStep_spec i st hargs hok
          obtain ⟨fs, hfs, hfslen⟩ := hstream
          obtain ⟨st', hrun', hA, hB, hC, hD⟩ := ih hf he ns nr st1 sp hwf'
            (by rw [hisSome1, hisSome])
            (fun hhe => by
              obtain ⟨shape, hshape, hlastns, hidxnr⟩ := helem hhe
              exact ⟨shape, by rw [hcur1]; exact hshape, hlastns,
                by rw [hidx1, hidxnr]⟩)
            (by rw [hstream1]; exact hemit)
            (by rw [hcur1]; exact hcur)
            (by rw [hidx1, hcursor])
            ⟨fs, by rw [hstream1, hfs], by rw [hcount1, hfslen]⟩
          exact ⟨st', by
            rw [runEvents_cons_some st st1 (Ev.matchEv i) t
              (show stepEv st (Ev.matchEv i) = Option.some st1 from hstep)]
            exact hrun', hA, hB, hC, hD⟩
      | eof now fstat =>
          rw [wfFrom] at hwf
          cases hfd : st.current_feature_data with
          | none =>
              have hspcur : sp.cur = Option.none := by
                rw [← hcur, curShape, hfd]
                rfl
              have hspec : specStep sp (Ev.eof now fstat) = sp := by
                simp [specStep, hspcur]
              obtain ⟨st', hrun', hA, hB, hC, hD⟩ := ih false false 0 0 st
                (specStep sp (Ev.eof now fstat)) hwf (by rw [hfd]; rfl)
                (fun h => Bool.noConfusion h)
                (by rw [hspec]; exact hemit)
                (by rw [hspec]; exact hcur)
                (by rw [hspec]; exact hcursor)
                hstream
              refine ⟨st', ?_, hA, hB, hC, hD⟩
              rw [runEvents_cons_some st st (Ev.eof now fstat) t
                (congrArg Option.some (eof_spec_none now fstat st hfd))]
              exact hrun'
          | some fd =>
              obtain ⟨fdOut, hshapeOut, heq⟩ := eof_spec_some now fstat st fd hfd
              have hscur : sp.cur = Option.some (shapeOfFd fd) := by
                rw [← hcur, curShape, hfd]
                rfl
              have hspec : specStep sp (Ev.eof now fstat) =
                  { emitted := sp.emitted ++ [shapeOfFd fd], cur := Option.none,
                    cursor := 0 } := by
                simp [specStep, hscur]
              obtain ⟨fs, hfs, hfslen⟩ := hstream
              obtain ⟨st', hrun', hA, hB, hC, hD⟩ := ih false false 0 0
                (CustomJSONFormatter.eof now fstat st)
                (specStep sp (Ev.eof now fstat)) hwf
                (by rw [heq]; rfl)
                (fun h => Bool.noConfusion h)
                (by
                  rw [heq, hspec]
                  show streamShapes (st.stream ++ _) = _
                  rw [streamShapes_append]
                  by_cases hcnt : st.feature_count = 0 <;>
                    simp [hcnt, streamShapes, hshapeOut] <;> exact hemit)
                (by rw [heq, hspec]; rfl)
                (by rw [heq, hspec])
                (by
                  rw [heq]
                  by_cases hcnt : st.feature_count = 0
                  · have hfs0 : fs = [] := List.length_eq_zero.mp (by rw [hfslen, hcnt])
                    refine ⟨[fdOut], ?_, ?_⟩
                    · rw [hfs, hfs0]
                      simp [assembleChunks, hcnt]
                    · simp [hcnt]
                  · have hfsne : fs ≠ [] := by
                      intro h0
                      rw [h0] at hfslen
                      exact hcnt (by simpa using hfslen.symm)
                    refine ⟨fs ++ [fdOut], ?_, ?_⟩
                    · rw [assembleChunks_concat fs fdOut hfsne, ← hfs]
                      simp [hcnt]
                    · simp [hfslen])
              exact ⟨st', hrun', hA, hB, hC, hD⟩

/-- C5: on every well-formed lifecycle trace, the formatter never raises,
the features written to the stream carry, per element and in execution
order, exactly as many step records as `step()` calls were made while that
element was current (`specRun` counts them directly from the claim
wording), the feature still being built matches the same counts, and the
per-element step cursor behaves as claimed: zero when an element
starts and advanced by exactly one per `result()` call. -/
theorem streamShapes_flatMap_sep (rest : List FeatureData) :
    streamShapes (rest.flatMap (fun g => [Chunk.sep, Chunk.feature g])) =
      rest.map shapeOfFd := by
  induction rest with
  | nil => rfl
  | cons g rs ih =>
      rw [List.flatMap_cons]
      show streamShapes ([Chunk.sep, Chunk.feature g] ++ _) = _
      rw [streamShapes_append, ih]
      rfl

theorem streamShapes_assembleChunks (fs : List FeatureData) :
    streamShapes (assembleChunks fs) = fs.map shapeOfFd := by
  cases fs with
  | nil => rfl
  | cons f rest =>
      have h : streamShapes (assembleChunks (f :: rest)) =
          shapeOfFd f ::
            streamShapes (rest.flatMap (fun g => [Chunk.sep, Chunk.feature g])) := rfl
      rw [h, streamShapes_flatMap_sep]
      rfl

theorem C5_wellformed_trace_step_counts (t : List Ev) (hwf : wfTrace t = true) :
    ∃ st', runEvents initState t = Option.some st' ∧
      streamShapes st'.stream = (specRun initSpec t).emitted ∧
      curShape st' = (specRun initSpec t).cur ∧
      st'.step_index = (specRun initSpec t).cursor ∧
      (∃ fs, st'.stream = assembleChunks fs ∧
        fs.map shapeOfFd = (specRun initSpec t).emitted) := by
  obtain ⟨st', h1, h2, h3, h4, fs, hfs, _⟩ := runEvents_wf_sound t false false 0 0
    initState initSpec hwf rfl (fun h => Bool.noConfusion h) rfl rfl rfl ⟨[], rfl, rfl⟩
  refine ⟨st', h1, h2, h3, h4, fs, hfs, ?_⟩
  rw [← streamShapes_assembleChunks, ← hfs, h2]

/-- A complete one-feature, one-scenario, one-step trace. -/
def c5Trace : List Ev :=
  [Ev.feature exFeatureInfo, Ev.scenario exScenarioInfo, Ev.step exStepPlain,
   Ev.result exResultInfo, Ev.eof "t4" "passed"]

theorem C5_witness :
    wfTrace c5Trace = true ∧
    (runEvents initState c5Trace).map
        (fun st' => (streamShapes st'.stream, curShape st', st'.step_index)) =
      Option.some ([[1]], Option.none, 0) := by
  refine ⟨by decide, ?_⟩
  obtain ⟨st', h1, h2, h3, h4, _⟩ := C5_wellformed_trace_step_counts c5Trace (by decide)
  rw [h1, Option.map_some', h2, h3, h4]
  rfl

/-- Rendering of one stream chunk (custom_json_formatter.py:294-305), with
the feature serialization `json.dumps(...)` kept abstract. -/
def renderChunk (dumps : FeatureData → String) : Chunk → String
  | Chunk.header => "[\n"
  | Chunk.sep => ",\n\n"
  | Chunk.footer => "\n]\n"
  | Chunk.feature fd => dumps fd

/-- The full text written to the output stream. -/
def renderOutput (dumps : FeatureData → String) (cs : List Chunk) : String :=
  String.join (cs.map (renderChunk dumps))

/-- The four whitespace characters JSON allows between tokens. -/
def isJsonWs (c : Char) : Bool :=
  c = ' ' || c = '\n' || c = '\r' || c = '\t'

/-- The string parses as the empty JSON array: stripping JSON whitespace
leaves exactly the two bracket tokens. -/
def parsesAsEmptyJsonArray (s : String) : Bool :=
  s.toList.filter (fun c => !isJsonWs c) = ['[', ']']

/-- C6: after any well-formed trace, if no feature was ever completed,
`close()` still writes both the array-open and array-close brackets and
the rendered output parses as a valid empty JSON array (whatever the
feature serializer would print); if at least one feature completed, the
stream already is header, first feature, then separator-prefixed
features, and `close()` appends exactly the closing bracket. -/
theorem C6_close_emits_array_brackets (t : List Ev) (hwf : wfTrace t = true) :
    ∃ st', runEvents initState t = Option.some st' ∧
      (st'.feature_count = 0 →
        (CustomJSONFormatter.close st').stream = [Chunk.header, Chunk.footer] ∧
        ∀ dumps, parsesAsEmptyJsonArray
          (renderOutput dumps (CustomJSONFormatter.close st').stream) = true) ∧
      (st'.feature_count ≠ 0 →
        ∃ fs, fs ≠ [] ∧ st'.stream = assembleChunks fs ∧
          (CustomJSONFormatter.close st').stream = st'.stream ++ [Chunk.footer]) := by
  obtain ⟨st', h1, _, _, _, fs, hfs, hflen⟩ := runEvents_wf_sound t false false 0 0
    initState initSpec hwf rfl (fun h => Bool.noConfusion h) rfl rfl rfl ⟨[], rfl, rfl⟩
  refine ⟨st', h1, ?_, ?_⟩
  · intro hzero
    have hfs0 : fs = [] := List.length_eq_zero.mp (by rw [hflen, hzero])
    have hstream0 : st'.stream = [] := by
      rw [hfs, hfs0]
      rfl
    have hclose : (CustomJSONFormatter.close st').stream = [Chunk.header, Chunk.footer] := by
      simp only [CustomJSONFormatter.close, if_pos hzero, writeChunk, hstream0]
      rfl
    refine ⟨hclose, ?_⟩
    intro dumps
    rw [hclose]
    rfl
  · intro hnz
    have hfsne : fs ≠ [] := by
      intro h0
      apply hnz
      rw [← hflen, h0]
      rfl
    refine ⟨fs, hfsne, hfs, ?_⟩
    simp only [CustomJSONFormatter.close, if_neg hnz, writeChunk]

theorem C6_witness :
    (runEvents initState []).map
        (fun st' => (CustomJSONFormatter.close st').stream) =
      Option.some [Chunk.header, Chunk.footer] ∧
    (runEvents initState []).map
        (fun st' => parsesAsEmptyJsonArray
          (renderOutput (fun _ => "") (CustomJSONFormatter.close st').stream)) =
      Option.some true := by
  obtain ⟨st', h1, hz, _⟩ := C6_close_emits_array_brackets [] (by decide)
  have hst' : st' = initState := (Option.some.inj h1).symm
  have h0 : st'.feature_count = 0 := by
    rw [hst']
    rfl
  obtain ⟨ha, hb⟩ := hz h0
  constructor
  · rw [h1, Option.map_some', ha]
  · rw [h1, Option.map_some', hb (fun _ => "")]
